import Mathlib

/-!
# gotty: the WebTTY protocol bridge (`webtty/webtty.go`)

A shallow embedding of the terminal bridge of gotty: the chunked file upload
state machine (`handleUploadFile`, `validateFileName`, `cleanupUploadFile`),
the dispatch of Master messages (`handleMasterReadEvent`), the Output path
(`handleSlaveReadEvent`) and the start-up sequence (`sendInitializeMessage`,
`Run`); and of the handshake of the transcription relay
(`server/asr_proxy.go`: `authenticateASRWS`, `generateHandleASRWS`).

Conventions of the embedding.

* A Go `string` and a Go `[]byte` are both lists of byte values (`Bytes`).
* A Go `int` is an `Int`. The only arithmetic on ints in the embedded code is
  `uploadChunks++` and `TotalChunks-1`, both applied to values that lie
  strictly between 0 and a value that was itself a Go `int`, so neither can
  wrap around.
* The Master, the Slave and the operating system are an explicit `World`
  value that records every call made to them, together with an `Env` of
  oracles that decide which of those calls fail.
* Library functions of Go whose behaviour matters to the properties
  (`filepath.Clean`, `filepath.Join`, `filepath.Base`, `strings.Contains`,
  `base64.StdEncoding.DecodeString` and `EncodeToString`) are embedded from the Go standard
  library for Unix; `json.Unmarshal` and the `float64` to `int` conversion
  are parameters (`Lib`).
-/

namespace Gotty

/-! ## Bytes and strings -/

/-- A Go `[]byte` or `string`: the list of its byte values. -/
abbrev Bytes := List Nat

/-- The bytes of an ASCII string literal. -/
def ascii (s : String) : Bytes := s.toList.map Char.toNat

/-- The path separator of `path/filepath` on Unix, the byte of `/`. -/
def Separator : Nat := 47

/-- The byte of `.`. -/
def Dot : Nat := 46

/-- Go `strings.HasPrefix(s, p)`. -/
def HasPrefix (s p : Bytes) : Bool := p.isPrefixOf s

/-- Go `strings.Contains(s, sub)`: `sub` occurs in `s` as a contiguous run. -/
def Contains : Bytes → Bytes → Bool
  | [], sub => sub.isPrefixOf []
  | c :: s, sub => sub.isPrefixOf (c :: s) || Contains s sub

/-! ## `path/filepath` (Unix) -/

/-- Go `filepath.Base`: strip the trailing separators, keep what follows the
last remaining separator; the empty path gives `.` and a path of separators
only gives `/`. -/
def Base (path : Bytes) : Bytes :=
  if path = [] then [Dot]
  else
    -- strip trailing slashes
    let stripped := (path.reverse.dropWhile (fun c => c == Separator)).reverse
    -- find the last element
    let last := (stripped.reverse.takeWhile (fun c => c != Separator)).reverse
    -- if empty now, it had only slashes
    if last = [] then [Separator] else last

/-- The look-ahead test of `filepath.Clean`, `r+1 == n || path[r+1] == '/'`,
on the part of the path that follows position `r`. -/
def atElemEnd : Bytes → Bool
  | [] => true
  | c :: _ => c == Separator

/-- The backtracking of `filepath.Clean` on a `..` element,
`out.w--; for out.w > dotdot && out.index(out.w) != '/' { out.w-- }`,
on the reversed buffer: bytes are dropped from the end until the byte just
dropped is a separator or the buffer is `dotdot` bytes long. -/
def backtrackRev (dotdot : Nat) : Bytes → Bytes
  | [] => []
  | x :: r => if dotdot < r.length ∧ x ≠ Separator then backtrackRev dotdot r else r

/-- The backtracking of `filepath.Clean` on the buffer `out`. -/
def backtrack (dotdot : Nat) (out : Bytes) : Bytes :=
  (backtrackRev dotdot out.reverse).reverse

/-- The condition under which `filepath.Clean` writes a separator before a
real path element: `rooted && out.w != 1 || !rooted && out.w != 0`. -/
def needSep (rooted : Bool) (out : Bytes) : Bool :=
  (rooted && out.length != 1) || (!rooted && out.length != 0)

/-- The main loop of `filepath.Clean` (`for r < n { switch ... }`), run on the
part of the path that is still to be read. `out` is the buffer written so far
(`out.buf[:out.w]`), `dotdot` the index where `..` must stop. The inner loop
that copies a real path element is the mode `copying = true`: it appends bytes
up to the next separator, which the outer loop then skips. The result is the
final buffer and the final `dotdot`. -/
def cleanLoop (rooted : Bool) : Bytes → Bool → Bytes → Nat → Bytes × Nat
  | [], _, out, dotdot => (out, dotdot)
  | c :: rest, true, out, dotdot =>
    if c = Separator then cleanLoop rooted rest false out dotdot
    else cleanLoop rooted rest true (out ++ [c]) dotdot
  | c :: rest, false, out, dotdot =>
    if c = Separator then
      -- empty path element
      cleanLoop rooted rest false out dotdot
    else if c = Dot ∧ atElemEnd rest = true then
      -- . element
      cleanLoop rooted rest false out dotdot
    else
      match rest with
      | [] =>
        -- real path element of one byte
        (if needSep rooted out then out ++ [Separator] ++ [c] else out ++ [c], dotdot)
      | d :: rest2 =>
        if c = Dot ∧ d = Dot ∧ atElemEnd rest2 = true then
          -- .. element: remove to last separator
          if dotdot < out.length then
            -- can backtrack
            cleanLoop rooted rest2 false (backtrack dotdot out) dotdot
          else if rooted = false then
            -- cannot backtrack, but not rooted, so append .. element
            let out2 := (if 0 < out.length then out ++ [Separator] else out) ++ [Dot, Dot]
            cleanLoop rooted rest2 false out2 out2.length
          else
            cleanLoop rooted rest2 false out dotdot
        else
          -- real path element: add slash if needed, copy element
          cleanLoop rooted (d :: rest2) true
            (if needSep rooted out then out ++ [Separator] ++ [c] else out ++ [c]) dotdot

/-- The buffer that `filepath.Clean` has built when its loop ends, before an
empty buffer is turned into `.`. -/
def cleanBuf (path : Bytes) : Bytes :=
  match path with
  | [] => []
  | c :: rest =>
    if c = Separator then (cleanLoop true rest false [Separator] 1).1
    else (cleanLoop false (c :: rest) false [] 0).1

/-- Go `filepath.Clean` on Unix (no volume name, `FromSlash` is the
identity). -/
def Clean (path : Bytes) : Bytes :=
  if path = [] then [Dot]
  else if cleanBuf path = [] then [Dot] else cleanBuf path

/-- Go `strings.Join(elems, "/")` for two elements. -/
def joinSep (a b : Bytes) : Bytes := a ++ [Separator] ++ b

/-- Go `filepath.Join(dir, name)` on Unix: the elements from the first
non-empty one on are joined with `/` and cleaned; if all are empty the result
is empty. -/
def Join (dir name : Bytes) : Bytes :=
  if dir ≠ [] then Clean (joinSep dir name)
  else if name ≠ [] then Clean name
  else []

/-! ## `encoding/base64`, `StdEncoding` -/

/-- The value of a byte in the standard base64 alphabet. -/
def b64Val (c : Nat) : Option Nat :=
  if 65 ≤ c ∧ c ≤ 90 then some (c - 65)
  else if 97 ≤ c ∧ c ≤ 122 then some (c - 97 + 26)
  else if 48 ≤ c ∧ c ≤ 57 then some (c - 48 + 52)
  else if c = 43 then some 62
  else if c = 47 then some 63
  else none

/-- The padding byte `=`. -/
def padChar : Nat := 61

/-- Decoding of the quanta of a padded base64 text without line breaks:
each group of four bytes gives three bytes; the last group may end in one or
two padding bytes and then gives two bytes or one. Left-over bits of a padded
group are not checked (`StdEncoding` is not strict). -/
def decodeQuanta : Bytes → Option Bytes
  | a :: b :: c :: d :: rest =>
    match b64Val a, b64Val b with
    | some va, some vb =>
      if rest = [] ∧ c = padChar ∧ d = padChar then some [(va * 4 + vb / 16) % 256]
      else
        match b64Val c with
        | none => none
        | some vc =>
          if rest = [] ∧ d = padChar then
            some [(va * 4 + vb / 16) % 256, (vb * 16 + vc / 4) % 256]
          else
            match b64Val d with
            | none => none
            | some vd =>
              match decodeQuanta rest with
              | none => none
              | some tl =>
                some ((va * 4 + vb / 16) % 256 :: (vb * 16 + vc / 4) % 256
                  :: (vc * 64 + vd) % 256 :: tl)
    | _, _ => none
  | [] => some []
  | _ => none

/-- Go `base64.StdEncoding.DecodeString`: carriage returns and line feeds are
ignored, everything else must be whole padded quanta. `none` is an error. -/
def DecodeString (s : Bytes) : Option Bytes :=
  decodeQuanta (s.filter (fun c => c != 10 && c != 13))

/-! ## The outside world: Master, Slave, file system -/

/-- An `*os.File` that the bridge has opened: the path it was opened at, the
write offset, and how many times `Close` has been called on it. -/
structure FileDesc where
  path : Bytes
  offset : Nat
  closes : Nat
  deriving DecidableEq, Repr

/-- Everything outside the bridge that the bridge acts on, with a record of
each call made. A file handle is an index into `handles`. -/
structure World where
  /-- The file system: path and content of each file. A file is identified
  with the path string it is reached by: two paths that name one file (a
  relative path and an absolute one, or a link) are not related here, so what
  is said of `files` is said of the file at the very path that was opened or
  removed. -/
  files : List (Bytes × Bytes)
  /-- Every file opened so far, in order of opening. -/
  handles : List FileDesc
  /-- The argument of each call of `masterConn.Write`, in order. -/
  masterWrites : List Bytes
  /-- The argument of each call of `slave.Write`, in order. -/
  slaveWrites : List Bytes
  /-- The arguments (columns, rows) of each call of `slave.ResizeTerminal`. -/
  resizes : List (Int × Int)
  /-- The number of calls of `slave.GetWorkingDir`. -/
  workDirCalls : Nat
  /-- The number of calls of `os.OpenFile`. -/
  openCalls : Nat
  /-- The number of calls of `File.Write`. -/
  fileWriteCalls : Nat
  /-- The number of calls of `os.Remove`. -/
  removeCalls : Nat
  deriving DecidableEq, Repr

/-- The outcomes of the calls that can fail, each by the number of earlier
calls of the same kind. -/
structure Env where
  /-- Whether the k-th `masterConn.Write` returns an error. -/
  masterWriteFails : Nat → Bool
  /-- Whether the k-th `slave.Write` returns an error. -/
  slaveWriteFails : Nat → Bool
  /-- The result of the k-th `slave.GetWorkingDir`; `none` is an error. -/
  getWorkingDir : Nat → Option Bytes
  /-- Whether the k-th `os.OpenFile` returns an error. -/
  openFails : Nat → Bool
  /-- The k-th `File.Write`: `none` writes everything, `some n` writes at most
  `n` bytes and returns an error. -/
  fileWriteFails : Nat → Option Nat
  /-- Whether the k-th `os.Remove` returns an error. -/
  removeFails : Nat → Bool

/-- The content of the file at `path`, if there is one. -/
def fsLookup (path : Bytes) : List (Bytes × Bytes) → Option Bytes
  | [] => none
  | (q, c) :: fs => if q = path then some c else fsLookup path fs

/-- The file system without the file at `path`. -/
def fsRemove (path : Bytes) (fs : List (Bytes × Bytes)) : List (Bytes × Bytes) :=
  fs.filter (fun e => decide (e.1 ≠ path))

/-- The file system with `content` as the file at `path`. -/
def fsWrite (path content : Bytes) (fs : List (Bytes × Bytes)) : List (Bytes × Bytes) :=
  (path, content) :: fsRemove path fs

/-- The content of a file after `data` is written at offset `off` (a gap
beyond the end is filled with zero bytes). -/
def writeAt (content : Bytes) (off : Nat) (data : Bytes) : Bytes :=
  content.take off ++ List.replicate (off - content.length) 0 ++ data
    ++ content.drop (off + data.length)

/-- Go `os.OpenFile(path, O_CREATE|O_WRONLY|O_TRUNC, 0644)`: on success the
file exists and is empty, and a new handle with offset 0 is returned. -/
def osOpenFile (env : Env) (w : World) (path : Bytes) : Option Nat × World :=
  if env.openFails w.openCalls then
    (none, { w with openCalls := w.openCalls + 1 })
  else
    (some w.handles.length,
      { w with
        openCalls := w.openCalls + 1
        files := fsWrite path [] w.files
        handles := w.handles ++ [{ path := path, offset := 0, closes := 0 }] })

/-- Go `File.Close` on handle `h` (its error is ignored by every caller). -/
def closeFile (w : World) (h : Nat) : World :=
  match w.handles[h]? with
  | none => w
  | some fd => { w with handles := w.handles.set h { fd with closes := fd.closes + 1 } }

/-- Go `File.Write(data)` on handle `h`; the boolean is `true` when no error is
returned. A closed handle fails. The bytes go to the file at the handle's
offset while the file is still at the handle's path (a file removed after it
was opened takes the bytes with it). -/
def fileWrite (env : Env) (w : World) (h : Nat) (data : Bytes) : Bool × World :=
  let w0 := { w with fileWriteCalls := w.fileWriteCalls + 1 }
  match w.handles[h]? with
  | none => (false, w0)
  | some fd =>
    if 0 < fd.closes then (false, w0)
    else
      let written := match env.fileWriteFails w.fileWriteCalls with
        | none => data
        | some n => data.take n
      let files := match fsLookup fd.path w.files with
        | none => w.files
        | some c => fsWrite fd.path (writeAt c fd.offset written) w.files
      ((env.fileWriteFails w.fileWriteCalls).isNone,
        { w0 with
          files := files
          handles := w.handles.set h { fd with offset := fd.offset + written.length } })

/-- Go `os.Remove(path)` (its error is ignored by the caller). -/
def osRemove (env : Env) (w : World) (path : Bytes) : World :=
  if env.removeFails w.removeCalls then
    { w with removeCalls := w.removeCalls + 1 }
  else
    { w with removeCalls := w.removeCalls + 1, files := fsRemove path w.files }

/-! ## The session -/

/-- The two decoders a session can hold: `NullCodec` and `base64.StdEncoding`. -/
inductive Decoder where
  | null
  | base64
  deriving DecidableEq, Repr

/-- The fields of `WebTTY` (the Master, the Slave and the write lock are in
`World`). `uploadFile` is `none` for a nil `*os.File`; `masterPrefs` is `none`
for a nil slice. -/
structure WebTTY where
  windowTitle : Bytes
  permitWrite : Bool
  columns : Int
  rows : Int
  reconnect : Int
  masterPrefs : Option Bytes
  decoder : Decoder
  bufferSize : Int
  uploadFile : Option Nat
  uploadFileName : Bytes
  uploadChunks : Int
  uploadWorkDir : Bytes
  deriving DecidableEq, Repr

/-- The session that `New` builds before the options are applied. -/
def New : WebTTY :=
  { windowTitle := []
    permitWrite := false
    columns := 0
    rows := 0
    reconnect := 0
    masterPrefs := none
    decoder := Decoder.null
    bufferSize := 1024
    uploadFile := none
    uploadFileName := []
    uploadChunks := 0
    uploadWorkDir := [] }

/-- The tag bytes of the protocol (`message_types.go`): the six tags a Master
sends, which the `switch` of `handleMasterReadEvent` tells apart (Go refuses
a `switch` with two equal constant cases), and the six tags sent to it. -/
structure MessageTypes where
  Input : Nat
  Ping : Nat
  SetEncoding : Nat
  ResizeTerminal : Nat
  UploadFile : Nat
  UploadCancel : Nat
  Output : Nat
  Pong : Nat
  SetWindowTitle : Nat
  SetPreferences : Nat
  SetReconnect : Nat
  SetBufferSize : Nat
  distinct : [Input, Ping, SetEncoding, ResizeTerminal, UploadFile, UploadCancel].Nodup

/-- The type `UploadFileMessage`. -/
structure UploadFileMessage where
  Name : Bytes
  Size : Int
  Chunk : Int
  TotalChunks : Int
  Data : Bytes
  deriving DecidableEq, Repr

/-- The type `argResizeTerminal`, over the type that stands for `float64`. -/
structure argResizeTerminal (F : Type) where
  Columns : F
  Rows : F

/-- The parts of Go's library that are parameters of the model:
`json.Unmarshal` into an `UploadFileMessage` and into an `argResizeTerminal`
(`none` is an error; both refuse the empty input), `float64`, and the
conversion `int(x)` of a `float64`. -/
structure Lib where
  Float64 : Type
  toInt : Float64 → Int
  unmarshalUpload : Bytes → Option UploadFileMessage
  unmarshalResize : Bytes → Option (argResizeTerminal Float64)
  unmarshalUpload_nil : unmarshalUpload [] = none
  unmarshalResize_nil : unmarshalResize [] = none

/-- Go `json.Marshal` of an `int`: its decimal digits. -/
def jsonMarshalInt (n : Int) : Bytes := ascii (toString n)

/-- Modelled from the spec: `NullCodec.Decode` (codecs.go), the pass-through
codec, whose decoded bytes are the payload itself. For `base64.StdEncoding`
the method is `Decode`, which accepts what `DecodeString` accepts. -/
def Decoder.Decode : Decoder → Bytes → Option Bytes
  | Decoder.null, src => some src
  | Decoder.base64, src => DecodeString src

/-! ## Errors -/

/-- The errors of `validateFileName`. -/
inductive FileNameError where
  | empty
  | absolute
  | traversal
  | invalid
  deriving DecidableEq, Repr

/-- The errors of `handleUploadFile`. -/
inductive UploadError where
  | parse
  | invalidFilename (e : FileNameError)
  | invalidTotalChunks
  | invalidChunkIndex (chunk : Int)
  | workingDir
  | createFile (path : Bytes)
  | outOfOrder (expected got : Int)
  | decodeData
  | writeFile
  deriving DecidableEq, Repr

/-- The errors of `handleMasterReadEvent`. -/
inductive MasterEventError where
  | zeroLength
  | decodeInput
  | slaveWrite
  | pong
  | resizeEmpty
  | resizeMalformed
  | upload (e : UploadError)
  | unknownType (tag : Nat)
  deriving DecidableEq, Repr

/-- The errors of `sendInitializeMessage`, by the message that failed. -/
inductive InitError where
  | windowTitle
  | bufferSize
  | reconnect
  | preferences
  deriving DecidableEq, Repr

/-! ## The bridge -/

/-- The function `masterWrite`: one call of `masterConn.Write` under the write
lock; the boolean is `true` when no error is returned. -/
def masterWrite (env : Env) (w : World) (data : Bytes) : Bool × World :=
  (!env.masterWriteFails w.masterWrites.length,
    { w with masterWrites := w.masterWrites ++ [data] })

/-- The function `validateFileName`; `none` is a nil error. -/
def validateFileName (name : Bytes) : Option FileNameError :=
  if name = [] then some FileNameError.empty
  else if HasPrefix name (ascii "/") || HasPrefix name (ascii "\\") then
    some FileNameError.absolute
  else if Contains name (ascii "..") then some FileNameError.traversal
  else if Base name = ascii "." ∨ Base name = ascii ".." then some FileNameError.invalid
  else none

/-- The block `if msg.Chunk == 0 { ... }` of `handleUploadFile` (lines
319-343): close the previous upload file, record the name, ask the Slave for
its working directory and open the destination file. -/
def uploadFirstChunk (env : Env) (wt : WebTTY) (w : World) (msg : UploadFileMessage) :
    Option UploadError × WebTTY × World :=
  if msg.Chunk = 0 then
    -- close previous upload file if any
    let w1 := match wt.uploadFile with
      | some h => closeFile w h
      | none => w
    let wt1 := { wt with uploadFile := none, uploadFileName := msg.Name, uploadChunks := 0 }
    -- get the PTY slave's current working directory
    let w2 := { w1 with workDirCalls := w1.workDirCalls + 1 }
    match env.getWorkingDir w1.workDirCalls with
    | none => (some UploadError.workingDir, wt1, w2)
    | some workDir =>
      let wt2 := { wt1 with uploadWorkDir := workDir }
      let filePath := Join workDir msg.Name
      match osOpenFile env w2 filePath with
      | (none, w3) => (some (UploadError.createFile filePath), wt2, w3)
      | (some h, w3) => (none, { wt2 with uploadFile := some h }, w3)
  else (none, wt, w)

/-- The rest of `handleUploadFile` (lines 345-375): refuse a chunk that is
not the expected one, decode the data, write it to the upload file, count the
chunk, and close the file after the last chunk. -/
def uploadAppend (env : Env) (wt : WebTTY) (w : World) (msg : UploadFileMessage) :
    Option UploadError × WebTTY × World :=
  -- skip if not the expected chunk
  if msg.Chunk ≠ wt.uploadChunks then
    (some (UploadError.outOfOrder wt.uploadChunks msg.Chunk), wt, w)
  else
    -- decode base64 data
    match DecodeString msg.Data with
    | none => (some UploadError.decodeData, wt, w)
    | some fileData =>
      -- write chunk to file
      let r := match wt.uploadFile with
        | some h => fileWrite env w h fileData
        | none => (true, w)
      if r.1 = false then (some UploadError.writeFile, wt, r.2)
      else
        let wt1 := { wt with uploadChunks := wt.uploadChunks + 1 }
        -- handle last chunk - close file
        if msg.Chunk = msg.TotalChunks - 1 then
          match wt1.uploadFile with
          | some h => (none, { wt1 with uploadFile := none, uploadWorkDir := [] }, closeFile r.2 h)
          | none => (none, { wt1 with uploadWorkDir := [] }, r.2)
        else (none, wt1, r.2)

/-- The function `handleUploadFile` after its `json.Unmarshal`: the three
validations, then the first-chunk block, then the append. -/
def handleUploadMessage (env : Env) (wt : WebTTY) (w : World) (msg : UploadFileMessage) :
    Option UploadError × WebTTY × World :=
  -- validate filename (relative path only)
  match validateFileName msg.Name with
  | some e => (some (UploadError.invalidFilename e), wt, w)
  | none =>
    if msg.TotalChunks ≤ 0 then (some UploadError.invalidTotalChunks, wt, w)
    else if msg.Chunk < 0 ∨ msg.Chunk ≥ msg.TotalChunks then
      (some (UploadError.invalidChunkIndex msg.Chunk), wt, w)
    else
      match uploadFirstChunk env wt w msg with
      | (some e, wt1, w1) => (some e, wt1, w1)
      | (none, wt1, w1) => uploadAppend env wt1 w1 msg

/-- The function `handleUploadFile`: the error returned (`none` is nil), the
session and the world afterwards. -/
def handleUploadFile (lib : Lib) (env : Env) (wt : WebTTY) (w : World) (payload : Bytes) :
    Option UploadError × WebTTY × World :=
  match lib.unmarshalUpload payload with
  | none => (some UploadError.parse, wt, w)
  | some msg => handleUploadMessage env wt w msg

/-- The function `handleMasterReadEvent`: the error returned (`none` is nil),
the session and the world afterwards. The `switch` on `data[0]` is the chain
of comparisons with the six tags. -/
def handleMasterReadEvent (mt : MessageTypes) (lib : Lib) (env : Env) (wt : WebTTY)
    (w : World) (data : Bytes) : Option MasterEventError × WebTTY × World :=
  match data with
  | [] => (some MasterEventError.zeroLength, wt, w)
  | tag :: payload =>
    if tag = mt.Input then
      if wt.permitWrite = false then (none, wt, w)
      else if payload = [] then (none, wt, w)
      else
        match wt.decoder.Decode payload with
        | none => (some MasterEventError.decodeInput, wt, w)
        | some decoded =>
          let w1 := { w with slaveWrites := w.slaveWrites ++ [decoded] }
          if env.slaveWriteFails w.slaveWrites.length then
            (some MasterEventError.slaveWrite, wt, w1)
          else (none, wt, w1)
    else if tag = mt.Ping then
      let r := masterWrite env w [mt.Pong]
      if r.1 = false then (some MasterEventError.pong, wt, r.2) else (none, wt, r.2)
    else if tag = mt.SetEncoding then
      if payload = ascii "base64" then (none, { wt with decoder := Decoder.base64 }, w)
      else if payload = ascii "null" then (none, { wt with decoder := Decoder.null }, w)
      else (none, wt, w)
    else if tag = mt.ResizeTerminal then
      if wt.columns ≠ 0 ∧ wt.rows ≠ 0 then (none, wt, w)
      else if payload = [] then (some MasterEventError.resizeEmpty, wt, w)
      else
        match lib.unmarshalResize payload with
        | none => (some MasterEventError.resizeMalformed, wt, w)
        | some args =>
          let rows := if wt.rows = 0 then lib.toInt args.Rows else wt.rows
          let columns := if wt.columns = 0 then lib.toInt args.Columns else wt.columns
          (none, wt, { w with resizes := w.resizes ++ [(columns, rows)] })
    else if tag = mt.UploadFile then
      if wt.permitWrite = false then (none, wt, w)
      else if payload = [] then (none, wt, w)
      else
        match handleUploadFile lib env wt w payload with
        | (some e, wt1, w1) => (some (MasterEventError.upload e), wt1, w1)
        | (none, wt1, w1) => (none, wt1, w1)
    else if tag = mt.UploadCancel then
      -- cancel ongoing upload and clean up partial file
      match wt.uploadFile with
      | some h =>
        let w1 := closeFile w h
        -- delete the partial file
        let w2 :=
          if wt.uploadFileName ≠ [] ∧ wt.uploadWorkDir ≠ [] then
            osRemove env w1 (Join wt.uploadWorkDir wt.uploadFileName)
          else w1
        (none,
          { wt with uploadFile := none, uploadFileName := [], uploadChunks := 0,
                    uploadWorkDir := [] }, w2)
      | none => (none, wt, w)
    else (some (MasterEventError.unknownType tag), wt, w)

/-- The Master read loop of `Run` (lines 110-120) on the messages that the
Master delivers: each is handled in turn and the loop ends at the first
error. The result lists what `handleMasterReadEvent` returned for each
message handled. -/
def masterReadLoop (mt : MessageTypes) (lib : Lib) (env : Env) (wt : WebTTY) (w : World) :
    List Bytes → List (Option MasterEventError) × WebTTY × World
  | [] => ([], wt, w)
  | data :: more =>
    match handleMasterReadEvent mt lib env wt w data with
    | (some e, wt1, w1) => ([some e], wt1, w1)
    | (none, wt1, w1) =>
      let r := masterReadLoop mt lib env wt1 w1 more
      (none :: r.1, r.2.1, r.2.2)

/-- The function `sendInitializeMessage`; `none` is a nil error. -/
def sendInitializeMessage (mt : MessageTypes) (env : Env) (wt : WebTTY) (w : World) :
    Option InitError × World :=
  let r1 := masterWrite env w (mt.SetWindowTitle :: wt.windowTitle)
  if r1.1 = false then (some InitError.windowTitle, r1.2)
  else
    let r2 := masterWrite env r1.2 (mt.SetBufferSize :: jsonMarshalInt wt.bufferSize)
    if r2.1 = false then (some InitError.bufferSize, r2.2)
    else
      let r3 : Option InitError × World :=
        if wt.reconnect > 0 then
          let r := masterWrite env r2.2 (mt.SetReconnect :: jsonMarshalInt wt.reconnect)
          if r.1 = false then (some InitError.reconnect, r.2) else (none, r.2)
        else (none, r2.2)
      match r3 with
      | (some e, w3) => (some e, w3)
      | (none, w3) =>
        match wt.masterPrefs with
        | some prefs =>
          let r := masterWrite env w3 (mt.SetPreferences :: prefs)
          if r.1 = false then (some InitError.preferences, r.2) else (none, r.2)
        | none => (none, w3)

/-- How `Run` begins. -/
inductive RunStart where
  /-- The initialization failed: `Run` returns the wrapped error at
  line 80, before either relay loop is started. -/
  | failed (e : InitError) (w : World)
  /-- The initialization succeeded: `Run` starts the two relay loops. -/
  | relays (w : World)

/-- The first statements of `Run` (lines 78-81). -/
def Run (mt : MessageTypes) (env : Env) (wt : WebTTY) (w : World) : RunStart :=
  match sendInitializeMessage mt env wt w with
  | (some e, w1) => RunStart.failed e w1
  | (none, w1) => RunStart.relays w1

/-- The function `cleanupUploadFile`: close the upload file if one is open. -/
def cleanupUploadFile (wt : WebTTY) (w : World) : WebTTY × World :=
  match wt.uploadFile with
  | some h => ({ wt with uploadFile := none }, closeFile w h)
  | none => (wt, w)

/-- The method `Close`. -/
def Close (wt : WebTTY) (w : World) : WebTTY × World :=
  cleanupUploadFile wt w

/-- Successive calls of `handleUploadFile`, one for each payload in order;
the result lists what each call returned. -/
def handleUploadFiles (lib : Lib) (env : Env) (wt : WebTTY) (w : World) :
    List Bytes → List (Option UploadError) × WebTTY × World
  | [] => ([], wt, w)
  | payload :: more =>
    let r := handleUploadFile lib env wt w payload
    let rs := handleUploadFiles lib env r.2.1 r.2.2 more
    (r.1 :: rs.1, rs.2.1, rs.2.2)

/-- A transfer is in progress: the session holds the handle `h`, the newest
one, which is open on `path` with its offset at the end of the file, the file
holds `acc`, and `count` chunks have been accepted. -/
def Transferring (path : Bytes) (h : Nat) (acc : Bytes) (count : Int) (wt : WebTTY)
    (w : World) : Prop :=
  wt.uploadFile = some h ∧ wt.uploadChunks = count ∧ h + 1 = w.handles.length ∧
    w.handles[h]? = some { path := path, offset := acc.length, closes := 0 } ∧
    fsLookup path w.files = some acc

/-- A transfer is complete: the session holds no handle, the newest handle was
opened on `path` and has been closed once, and the file holds `acc`. -/
def Completed (path : Bytes) (acc : Bytes) (wt : WebTTY) (w : World) : Prop :=
  wt.uploadFile = none ∧
    w.handles.getLast? = some { path := path, offset := acc.length, closes := 1 } ∧
    fsLookup path w.files = some acc

/-- The bytes that a list of upload messages carries: the decoded data of
each message, in order. -/
def decodedChunks (msgs : List UploadFileMessage) : Bytes :=
  (msgs.map (fun m => (DecodeString m.Data).getD [])).flatten

/-- A stand-in for `json.Unmarshal` that knows the finitely many payloads of
a scenario: a table from payload to upload message and a table from payload
to the two integers of a resize request. The `float64` of this library is
`Int`. -/
def tableLib (uploads : List (Bytes × UploadFileMessage))
    (resizes : List (Bytes × Int × Int)) : Lib :=
  { Float64 := Int
    toInt := fun x => x
    unmarshalUpload := fun p => if p = [] then none else (uploads.lookup p)
    unmarshalResize := fun p =>
      if p = [] then none
      else (resizes.lookup p).map (fun cr => { Columns := cr.1, Rows := cr.2 })
    unmarshalUpload_nil := by simp
    unmarshalResize_nil := by simp }

/-- An environment in which no call fails and the Slave reports `workDir`. -/
def quietEnv (workDir : Bytes) : Env :=
  { masterWriteFails := fun _ => false
    slaveWriteFails := fun _ => false
    getWorkingDir := fun _ => some workDir
    openFails := fun _ => false
    fileWriteFails := fun _ => none
    removeFails := fun _ => false }

/-- A world with no files and no calls made yet. -/
def emptyWorld : World :=
  { files := [], handles := [], masterWrites := [], slaveWrites := [], resizes := [],
    workDirCalls := 0, openCalls := 0, fileWriteCalls := 0, removeCalls := 0 }

/-- An assignment of tag bytes, the digits `1` to `6` in each direction. -/
def sampleTypes : MessageTypes :=
  { Input := 49, Ping := 50, ResizeTerminal := 51, SetEncoding := 52, UploadFile := 53,
    UploadCancel := 54, Output := 49, Pong := 50, SetWindowTitle := 51,
    SetPreferences := 52, SetReconnect := 53, SetBufferSize := 54,
    distinct := by decide }

/-- The upload message of chunk `chunk` of `total` for the file `name`. -/
def chunkMessage (name : String) (chunk total : Int) (data : String) : UploadFileMessage :=
  { Name := ascii name, Size := 3, Chunk := chunk, TotalChunks := total, Data := ascii data }

/-- The scenario of the three chunks of `a.txt`: payloads and the messages
they parse to. -/
def abcUploads : List (Bytes × UploadFileMessage) :=
  [(ascii "chunk 0/3 a.txt QQ==", chunkMessage "a.txt" 0 3 "QQ=="),
   (ascii "chunk 1/3 a.txt Qg==", chunkMessage "a.txt" 1 3 "Qg=="),
   (ascii "chunk 2/3 a.txt Qw==", chunkMessage "a.txt" 2 3 "Qw==")]

/-- The scenario of `a.txt` after its chunks 0 and 1 have been accepted by a
new session with write permission: a transfer in progress with counter 2. -/
def abcAfterTwo : Option UploadError × WebTTY × World :=
  handleUploadMessage (quietEnv (ascii "/tmp"))
    (handleUploadMessage (quietEnv (ascii "/tmp")) { New with permitWrite := true } emptyWorld
      (chunkMessage "a.txt" 0 3 "QQ==")).2.1
    (handleUploadMessage (quietEnv (ascii "/tmp")) { New with permitWrite := true } emptyWorld
      (chunkMessage "a.txt" 0 3 "QQ==")).2.2
    (chunkMessage "a.txt" 1 3 "Qg==")

/-- The upload state of a newly created session: no file handle, empty
filename, counter 0, empty directory. -/
def UploadIdle (wt : WebTTY) : Prop :=
  wt.uploadFile = none ∧ wt.uploadFileName = [] ∧ wt.uploadChunks = 0 ∧ wt.uploadWorkDir = []

/-- Between `w` and `w1` nothing was written to the Slave and no file was
opened, written, truncated, closed or removed. -/
def SlaveAndFilesUntouched (w w1 : World) : Prop :=
  w1.slaveWrites = w.slaveWrites ∧ w1.files = w.files ∧ w1.handles = w.handles ∧
    w1.openCalls = w.openCalls ∧ w1.fileWriteCalls = w.fileWriteCalls ∧
    w1.removeCalls = w.removeCalls

/-- The start-up sequence as the specification lists it: the title message,
the buffer size message, the reconnect message if and only if the reconnect
interval is > 0, the preferences message if and only if a preferences blob is
configured. -/
def initSequence (mt : MessageTypes) (wt : WebTTY) : List Bytes :=
  [mt.SetWindowTitle :: wt.windowTitle, mt.SetBufferSize :: jsonMarshalInt wt.bufferSize]
  ++ (if wt.reconnect > 0 then [mt.SetReconnect :: jsonMarshalInt wt.reconnect] else [])
  ++ (match wt.masterPrefs with
      | some prefs => [mt.SetPreferences :: prefs]
      | none => [])

/-- The environment of `quietEnv` in which every `os.Remove` fails. -/
def stickyEnv (workDir : Bytes) : Env :=
  { quietEnv workDir with removeFails := fun _ => true }

/-- The scenario of `a.txt` after its chunk 0 of 3 has been accepted by a new
session with write permission in the environment `env`: a transfer in
progress with counter 1. -/
def abcAfterOne (env : Env) : Option UploadError × WebTTY × World :=
  handleUploadMessage env { New with permitWrite := true } emptyWorld
    (chunkMessage "a.txt" 0 3 "QQ==")


/-- A session with a reconnect interval of 10 seconds and a preferences
blob. -/
def configuredSession : WebTTY :=
  { New with reconnect := 10, masterPrefs := some (ascii "prefs") }

/-- An environment in which exactly the Master write number `k` fails. -/
def masterFailsAt (k : Nat) : Env :=
  { quietEnv [] with masterWriteFails := fun i => decide (i = k) }

/-- A library that parses the payload `80x24` as a resize to 80 columns and
24 rows, and `chunk 0/2 b.txt Qg==` as the first of two chunks of `b.txt`. -/
def demoLib : Lib :=
  tableLib [(ascii "chunk 0/2 b.txt Qg==", chunkMessage "b.txt" 0 2 "Qg==")]
    [(ascii "80x24", 80, 24)]

/-- The segments of a path between its separators (at least one, possibly
empty). -/
def splitSep : Bytes → List Bytes
  | [] => [[]]
  | c :: cs =>
    if c = Separator then [] :: splitSep cs
    else
      match splitSep cs with
      | [] => [[c]]
      | s :: ss => (c :: s) :: ss

/-- The path elements that a name contributes: its segments other than the
empty one and `.`. -/
def pathElements (name : Bytes) : List Bytes :=
  (splitSep name).filter (fun s => decide (s ≠ [] ∧ s ≠ [Dot]))

/-- Path elements joined by separators. -/
def joinElems : List Bytes → Bytes
  | [] => []
  | e :: es => e ++ (es.map (fun x => Separator :: x)).flatten

/-- The path made of the cleaned directory buffer `base` followed by the
elements `elems`: under the empty buffer (the current directory) the elements
alone, under the root `/` no second separator. -/
def joinUnder (base : Bytes) (elems : List Bytes) : Bytes :=
  if base = [] then joinElems elems
  else if base = [Separator] then Separator :: joinElems elems
  else base ++ Separator :: joinElems elems

/-- What the loop of `filepath.Clean` appends for a list of real path
elements. -/
def emit (rooted : Bool) (out : Bytes) : List Bytes → Bytes
  | [] => out
  | e :: es => emit rooted ((if needSep rooted out then out ++ [Separator] else out) ++ e) es

/-- The invariant of the loop of `filepath.Clean`: `dotdot` lies within the
buffer, and the buffer begins with a separator exactly when the path is
rooted. -/
def CleanInv (rooted : Bool) (out : Bytes) (dotdot : Nat) : Prop :=
  dotdot ≤ out.length ∧ (rooted = true → 1 ≤ dotdot ∧ out.head? = some Separator) ∧
    (rooted = false → out.head? ≠ some Separator)

/-- The paths of the files opened so far, in order of opening. -/
def openedPaths (w : World) : List Bytes := w.handles.map (fun fd => fd.path)

/-- The byte of the standard base64 alphabet for a 6-bit value (`encodeStd`). -/
def b64Char (v : Nat) : Nat :=
  if v < 26 then 65 + v
  else if v < 52 then 97 + (v - 26)
  else if v < 62 then 48 + (v - 52)
  else if v = 62 then 43
  else 47

/-- Go `base64.StdEncoding.EncodeToString`: each group of three bytes gives
four bytes of the alphabet; a last group of two bytes gives three and one
padding byte, a last group of one byte gives two and two padding bytes. -/
def EncodeToString : Bytes → Bytes
  | b1 :: b2 :: b3 :: rest =>
    b64Char (b1 / 4) :: b64Char (b1 % 4 * 16 + b2 / 16) :: b64Char (b2 % 16 * 4 + b3 / 64)
      :: b64Char (b3 % 64) :: EncodeToString rest
  | [b1, b2] => [b64Char (b1 / 4), b64Char (b1 % 4 * 16 + b2 / 16), b64Char (b2 % 16 * 4), padChar]
  | [b1] => [b64Char (b1 / 4), b64Char (b1 % 4 * 16), padChar, padChar]
  | [] => []

/-- The function `handleSlaveReadEvent`: the data read from the Slave is
base64-encoded and written to the Master after the Output tag; the boolean is
`true` when no error is returned. -/
def handleSlaveReadEvent (mt : MessageTypes) (env : Env) (w : World) (data : Bytes) :
    Bool × World :=
  masterWrite env w (mt.Output :: EncodeToString data)

/-- The bound of one Slave read in `Run` (lines 90-92):
`int(effectiveBufferSize/4) * 3` with `effectiveBufferSize := bufferSize - 1`;
the division of Go truncates toward zero. -/
def maxChunkSize (bufferSize : Int) : Int :=
  Int.tdiv (bufferSize - 1) 4 * 3

/-- The scenario of a one-chunk upload: a new session with write permission
has accepted chunk 0 of 1 of `a.txt`, so the transfer is complete. -/
def oneChunkDone : Option UploadError × WebTTY × World :=
  handleUploadMessage (quietEnv (ascii "/tmp")) { New with permitWrite := true } emptyWorld
    (chunkMessage "a.txt" 0 1 "QQ==")

/-- A library that parses `chunk 1/2 a.txt Qg==` as chunk 1 of 2 of `a.txt`
and `chunk 0/2 ./a.txt Qg==` as chunk 0 of 2 of `./a.txt`. -/
def staleLib : Lib :=
  tableLib
    [(ascii "chunk 1/2 a.txt Qg==", chunkMessage "a.txt" 1 2 "Qg=="),
     (ascii "chunk 0/2 ./a.txt Qg==", chunkMessage "./a.txt" 0 2 "Qg==")] []

/-- An environment in which exactly the `os.OpenFile` number `k` fails. -/
def openFailsAt (workDir : Bytes) (k : Nat) : Env :=
  { quietEnv workDir with openFails := fun i => decide (i = k) }

/-- The handles are accounted for: the handle held by the session, if any,
exists, and every handle opened so far is open (never closed) if it is the
one held and has been closed exactly once otherwise. -/
def Accounted (held : Option Nat) (handles : List FileDesc) : Prop :=
  (∀ h, held = some h → h < handles.length) ∧
    ∀ i fd, handles[i]? = some fd → fd.closes = (if held = some i then 0 else 1)

/-! ## The relay of the transcription service (`server/asr_proxy.go`) -/

/-- The message type `websocket.TextMessage`. -/
def TextMessage : Int := 1

/-- The message type `websocket.CloseMessage`. -/
def CloseMessage : Int := 8

/-- The close code `websocket.ClosePolicyViolation`. -/
def ClosePolicyViolation : Int := 1008

/-- The close code `websocket.CloseTryAgainLater`. -/
def CloseTryAgainLater : Int := 1013

/-- What `conn.ReadMessage()` returned: an error, with its text, or a
message with its type and payload. -/
inductive ReadMessageResult where
  | failed (cause : Bytes)
  | message (typ : Int) (data : Bytes)
  deriving DecidableEq, Repr

/-- Modelled from the spec: the type `InitMessage`, declared outside
`asr_proxy.go`; the handshake reads only its authentication token. -/
structure InitMessage where
  AuthToken : Bytes
  deriving DecidableEq, Repr

/-- The fields of `Options` that the relay reads. -/
structure Options where
  EnableASR : Bool
  Credential : Bytes
  ASRBackend : Bytes
  deriving DecidableEq, Repr

/-- The errors of `authenticateASRWS`; a wrapped error carries the text of
its cause. -/
inductive AuthError where
  | read (cause : Bytes)
  | messageType
  | parse (cause : Bytes)
  | authentication
  deriving DecidableEq, Repr

/-- The text of an error of `authenticateASRWS` (`err.Error()`). -/
def AuthError.Error : AuthError → Bytes
  | AuthError.read cause => ascii "failed to read init message: " ++ cause
  | AuthError.messageType => ascii "invalid init message type"
  | AuthError.parse cause => ascii "failed to parse init message: " ++ cause
  | AuthError.authentication => ascii "authentication failed"

/-- The function `authenticateASRWS` on the result of the first read of the
connection; `json.Unmarshal` into an `InitMessage` is a parameter (an error
carries its text); `none` is a nil error. -/
def authenticateASRWS (unmarshalInit : Bytes → Except Bytes InitMessage) (options : Options)
    (first : ReadMessageResult) : Option AuthError :=
  match first with
  | ReadMessageResult.failed cause => some (AuthError.read cause)
  | ReadMessageResult.message typ data =>
    if typ ≠ TextMessage then some AuthError.messageType
    else
      match unmarshalInit data with
      | Except.error cause => some (AuthError.parse cause)
      | Except.ok init =>
        if init.AuthToken ≠ options.Credential then some AuthError.authentication
        else none

/-- What happens to one request of the relay endpoint: whether it is a GET,
whether the upgrade to a WebSocket succeeds, what the first read of the
client connection returns, and whether the backend can be dialed. -/
structure ASRRequest where
  methodIsGet : Bool
  upgradeOk : Bool
  firstRead : ReadMessageResult
  dialOk : Bool
  deriving DecidableEq, Repr

/-- The calls that the handler of the relay endpoint makes. `relay` stands
for the two `proxyWS` loops, which run concurrently and are not modelled. -/
inductive ASRAction where
  /-- The call `http.Error(w, text, status)`. -/
  | httpError (status : Nat) (text : Bytes)
  /-- The call `clientConn.WriteControl(messageType,
  FormatCloseMessage(closeCode, text), deadline)`. -/
  | writeControl (messageType : Int) (closeCode : Int) (text : Bytes)
  /-- The call `websocket.DefaultDialer.Dial(address, nil)`. -/
  | dial (address : Bytes)
  | relay
  | closeBackend
  | closeClient
  deriving DecidableEq, Repr

/-- The handler that `generateHandleASRWS` returns: the calls it makes, in
order, for one request. The deferred closes come last. -/
def generateHandleASRWS (unmarshalInit : Bytes → Except Bytes InitMessage) (options : Options)
    (req : ASRRequest) : List ASRAction :=
  if options.EnableASR = false then [ASRAction.httpError 404 (ascii "ASR is disabled")]
  else if req.methodIsGet = false then [ASRAction.httpError 405 (ascii "Method not allowed")]
  else if req.upgradeOk = false then []
  else
    match authenticateASRWS unmarshalInit options req.firstRead with
    | some err =>
      [ASRAction.writeControl CloseMessage ClosePolicyViolation err.Error,
        ASRAction.closeClient]
    | none =>
      if req.dialOk = false then
        [ASRAction.dial options.ASRBackend,
          ASRAction.writeControl CloseMessage CloseTryAgainLater
            (ascii "ASR backend unavailable"),
          ASRAction.closeClient]
      else
        [ASRAction.dial options.ASRBackend, ASRAction.relay, ASRAction.closeBackend,
          ASRAction.closeClient]

/-- A stand-in for `json.Unmarshal` into an `InitMessage`: the payload is the
token itself, and the payload `?` does not parse. -/
def tokenUnmarshal (data : Bytes) : Except Bytes InitMessage :=
  if data = ascii "?" then Except.error (ascii "invalid character") else Except.ok { AuthToken := data }

/-! ## Theorems -/

/-! ### The file system -/

theorem fsLookup_fsRemove_self (p : Bytes) (fs : List (Bytes × Bytes)) :
    fsLookup p (fsRemove p fs) = none := by
  induction fs with
  | nil => rfl
  | cons e fs ih =>
    obtain ⟨q, c⟩ := e
    by_cases hq : q = p
    · simpa [fsRemove, List.filter_cons, hq] using ih
    · simpa [fsRemove, List.filter_cons, hq, fsLookup] using ih

theorem fsLookup_fsWrite_self (p c : Bytes) (fs : List (Bytes × Bytes)) :
    fsLookup p (fsWrite p c fs) = some c := by
  simp [fsWrite, fsLookup]

theorem writeAt_end (c d : Bytes) : writeAt c c.length d = c ++ d := by
  simp [writeAt]

/-! ### Chunked upload -/

theorem uploadFirstChunk_zero (env : Env) (wt : WebTTY) (w : World) (msg : UploadFileMessage)
    (workDir : Bytes) (h0 : msg.Chunk = 0)
    (hwd : ∀ k, env.getWorkingDir k = some workDir) (hopen : ∀ k, env.openFails k = false) :
    (uploadFirstChunk env wt w msg).1 = none ∧
      ∃ h, Transferring (Join workDir msg.Name) h [] 0
        (uploadFirstChunk env wt w msg).2.1 (uploadFirstChunk env wt w msg).2.2 := by
  cases hf : wt.uploadFile <;>
    simp [uploadFirstChunk, h0, hwd, hopen, osOpenFile, hf, Transferring, fsLookup_fsWrite_self]

theorem uploadFirstChunk_pos (env : Env) (wt : WebTTY) (w : World) (msg : UploadFileMessage)
    (h0 : msg.Chunk ≠ 0) : uploadFirstChunk env wt w msg = (none, wt, w) := by
  simp [uploadFirstChunk, h0]

theorem getLast?_set_last {α : Type} (l : List α) (h : Nat) (x : α) (hl : h + 1 = l.length) :
    (l.set h x).getLast? = some x := by
  rw [List.getLast?_eq_getElem?, List.length_set, ← hl]
  simp [List.getElem?_set_self, ← hl]

theorem uploadAppend_step (env : Env) (wt : WebTTY) (w : World) (msg : UploadFileMessage)
    (path : Bytes) (h : Nat) (acc d : Bytes)
    (ht : Transferring path h acc msg.Chunk wt w)
    (hd : DecodeString msg.Data = some d) (hwrite : ∀ k, env.fileWriteFails k = none) :
    (uploadAppend env wt w msg).1 = none ∧
      (if msg.Chunk = msg.TotalChunks - 1 then
        Completed path (acc ++ d) (uploadAppend env wt w msg).2.1 (uploadAppend env wt w msg).2.2
       else Transferring path h (acc ++ d) (msg.Chunk + 1)
        (uploadAppend env wt w msg).2.1 (uploadAppend env wt w msg).2.2) := by
  obtain ⟨hf, hc, hlen, hh, hfs⟩ := ht
  have hlt : h < w.handles.length := by omega
  by_cases hl : msg.Chunk = msg.TotalChunks - 1
  · simp [uploadAppend, hf, hc, hd, fileWrite, hh, hwrite, hfs, hl, closeFile, Completed,
      fsLookup_fsWrite_self, writeAt_end, hlt]
    exact getLast?_set_last _ _ _ hlen
  · simp [uploadAppend, hf, hc, hd, fileWrite, hh, hwrite, hfs, hl, closeFile, Transferring,
      fsLookup_fsWrite_self, writeAt_end, hlt]
    exact hlen

/-- A valid chunk passes the three validations of `handleUploadFile`. -/
theorem handleUploadMessage_valid (env : Env) (wt wt1 : WebTTY) (w w1 : World)
    (msg : UploadFileMessage) (hname : validateFileName msg.Name = none)
    (h0 : 0 ≤ msg.Chunk) (hlt : msg.Chunk < msg.TotalChunks)
    (hr : uploadFirstChunk env wt w msg = (none, wt1, w1)) :
    handleUploadMessage env wt w msg = uploadAppend env wt1 w1 msg := by
  have h1 : ¬ msg.TotalChunks ≤ 0 := by omega
  have h2 : ¬ (msg.Chunk < 0 ∨ msg.Chunk ≥ msg.TotalChunks) := by omega
  simp [handleUploadMessage, hname, h1, h2, hr]

theorem handleUploadMessage_first (env : Env) (wt : WebTTY) (w : World)
    (msg : UploadFileMessage) (workDir d : Bytes)
    (hname : validateFileName msg.Name = none) (h0 : msg.Chunk = 0)
    (hlt : 0 < msg.TotalChunks)
    (hwd : ∀ k, env.getWorkingDir k = some workDir) (hopen : ∀ k, env.openFails k = false)
    (hwrite : ∀ k, env.fileWriteFails k = none) (hd : DecodeString msg.Data = some d) :
    (handleUploadMessage env wt w msg).1 = none ∧
      (if msg.TotalChunks = 1 then
        Completed (Join workDir msg.Name) d (handleUploadMessage env wt w msg).2.1
          (handleUploadMessage env wt w msg).2.2
       else ∃ h, Transferring (Join workDir msg.Name) h d 1
          (handleUploadMessage env wt w msg).2.1 (handleUploadMessage env wt w msg).2.2) := by
  obtain ⟨he, h, ht⟩ := uploadFirstChunk_zero env wt w msg workDir h0 hwd hopen
  rcases hr : uploadFirstChunk env wt w msg with ⟨e, wt1, w1⟩
  rw [hr] at he ht
  simp only at he ht
  subst he
  rw [handleUploadMessage_valid env wt wt1 w w1 msg hname (by omega) (by omega) hr]
  have ht2 : Transferring (Join workDir msg.Name) h [] msg.Chunk wt1 w1 := by rw [h0]; exact ht
  have hs := uploadAppend_step env wt1 w1 msg _ h [] d ht2 hd hwrite
  refine ⟨hs.1, ?_⟩
  have hs2 := hs.2
  by_cases hN : msg.TotalChunks = 1
  · have hc : msg.Chunk = msg.TotalChunks - 1 := by omega
    rw [if_pos hc] at hs2
    rw [if_pos hN]
    simpa using hs2
  · have hc : ¬ msg.Chunk = msg.TotalChunks - 1 := by omega
    rw [if_neg hc] at hs2
    rw [if_neg hN]
    exact ⟨h, by simpa [h0] using hs2⟩

theorem handleUploadMessage_next (env : Env) (wt : WebTTY) (w : World)
    (msg : UploadFileMessage) (path : Bytes) (h : Nat) (acc d : Bytes)
    (hname : validateFileName msg.Name = none) (h0 : 0 < msg.Chunk)
    (hlt : msg.Chunk < msg.TotalChunks)
    (ht : Transferring path h acc msg.Chunk wt w)
    (hwrite : ∀ k, env.fileWriteFails k = none) (hd : DecodeString msg.Data = some d) :
    (handleUploadMessage env wt w msg).1 = none ∧
      (if msg.Chunk = msg.TotalChunks - 1 then
        Completed path (acc ++ d) (handleUploadMessage env wt w msg).2.1
          (handleUploadMessage env wt w msg).2.2
       else Transferring path h (acc ++ d) (msg.Chunk + 1)
          (handleUploadMessage env wt w msg).2.1 (handleUploadMessage env wt w msg).2.2) := by
  rw [handleUploadMessage_valid env wt wt w w msg hname (by omega) hlt
    (uploadFirstChunk_pos env wt w msg (by omega))]
  exact uploadAppend_step env wt w msg path h acc d ht hd hwrite

/-- The chunks after the first: from a transfer in progress at chunk `i`, the
chunks `i`, `i+1`, ... up to the last are all accepted and complete the file. -/
theorem handleUploadFiles_rest (lib : Lib) (env : Env) (name path : Bytes) (total : Nat)
    (hname : validateFileName name = none) (hwrite : ∀ k, env.fileWriteFails k = none) :
    ∀ (msgs : List UploadFileMessage) (payloads : List Bytes) (i h : Nat) (acc : Bytes)
      (wt : WebTTY) (w : World),
      msgs ≠ [] → List.Forall₂ (fun p m => lib.unmarshalUpload p = some m) payloads msgs →
      0 < i → i + msgs.length = total →
      (∀ j (hj : j < msgs.length), msgs[j].Name = name ∧ msgs[j].TotalChunks = total ∧
        msgs[j].Chunk = ((i + j : Nat) : Int) ∧ (DecodeString msgs[j].Data).isSome = true) →
      Transferring path h acc i wt w →
      (handleUploadFiles lib env wt w payloads).1 = List.replicate msgs.length none ∧
        Completed path (acc ++ decodedChunks msgs)
          (handleUploadFiles lib env wt w payloads).2.1
          (handleUploadFiles lib env wt w payloads).2.2 := by
  intro msgs
  induction msgs with
  | nil => intro _ _ _ _ _ _ h; exact absurd rfl h
  | cons m ms ih =>
    intro payloads i h acc wt w _ hparse hi htot hm ht
    cases hparse with
    | cons hp hrest =>
      rename_i p ps
      obtain ⟨hn, hT, hC, hD⟩ := hm 0 (by simp)
      simp only [List.getElem_cons_zero, Nat.add_zero] at hn hT hC hD
      obtain ⟨d, hd⟩ := Option.isSome_iff_exists.mp hD
      have hlen : (m :: ms).length = ms.length + 1 := rfl
      have hstep := handleUploadMessage_next env wt w m path h acc d (by rw [hn]; exact hname)
        (by omega) (by rw [hT, hC]; omega) (by rw [hC]; exact ht) hwrite hd
      have hfile : handleUploadFile lib env wt w p = handleUploadMessage env wt w m := by
        simp [handleUploadFile, hp]
      simp only [handleUploadFiles, hfile]
      by_cases hms : ms = []
      · subst hms
        cases hrest
        have hc : m.Chunk = m.TotalChunks - 1 := by rw [hT, hC]; simp at htot; omega
        rw [if_pos hc] at hstep
        simp [handleUploadFiles, hstep.1, decodedChunks, hd]
        exact hstep.2
      · have hc : ¬ m.Chunk = m.TotalChunks - 1 := by
          rw [hT, hC]
          have : 0 < ms.length := List.length_pos.mpr hms
          simp at htot; omega
        rw [if_neg hc] at hstep
        have ht2 : Transferring path h (acc ++ d) ((i + 1 : Nat) : Int)
            (handleUploadMessage env wt w m).2.1 (handleUploadMessage env wt w m).2.2 := by
          have := hstep.2
          rw [hC] at this
          simpa using this
        have hrec := ih ps (i + 1) h (acc ++ d) _ _ hms hrest (by omega)
          (by simp at htot; omega)
          (fun j hj => by
            have := hm (j + 1) (by simp; omega)
            simp only [List.getElem_cons_succ] at this
            have e : i + (j + 1) = i + 1 + j := by omega
            rw [e] at this
            exact this) ht2
        refine ⟨?_, ?_⟩
        · simp [hstep.1, hrec.1, List.replicate_succ]
        · have := hrec.2
          simpa [decodedChunks, hd, List.append_assoc] using this


/-- C1. With a valid filename, a Slave that reports its working directory and
file operations that succeed: for every N >= 1 and every N upload messages
with the same name, totalChunks = N, chunk indices 0, 1, ..., N-1 in order and
base64-decodable data, every call of `handleUploadFile` returns no error, the
file at `Join workDir name` afterwards holds exactly the decoded payloads in
order, the session's file handle is nil, and the handle that was opened (the
newest) has been closed once. This holds from every session state and every
state of the world. -/
theorem upload_sequence_reconstructs_file (lib : Lib) (env : Env) (wt : WebTTY) (w : World)
    (name workDir : Bytes) (payloads : List Bytes) (msgs : List UploadFileMessage)
    (hname : validateFileName name = none)
    (hwd : ∀ k, env.getWorkingDir k = some workDir)
    (hopen : ∀ k, env.openFails k = false)
    (hwrite : ∀ k, env.fileWriteFails k = none)
    (hN : 1 ≤ msgs.length)
    (hparse : List.Forall₂ (fun p m => lib.unmarshalUpload p = some m) payloads msgs)
    (hmsgs : ∀ j (hj : j < msgs.length), msgs[j].Name = name ∧
      msgs[j].TotalChunks = msgs.length ∧ msgs[j].Chunk = j ∧
      (DecodeString msgs[j].Data).isSome = true) :
    (handleUploadFiles lib env wt w payloads).1 = List.replicate msgs.length none ∧
      fsLookup (Join workDir name) (handleUploadFiles lib env wt w payloads).2.2.files
        = some (decodedChunks msgs) ∧
      (handleUploadFiles lib env wt w payloads).2.1.uploadFile = none ∧
      (handleUploadFiles lib env wt w payloads).2.2.handles.getLast?
        = some { path := Join workDir name, offset := (decodedChunks msgs).length,
                 closes := 1 } := by
  cases hparse with
  | nil => simp at hN
  | cons hp hrest =>
    rename_i p m ps ms
    obtain ⟨hn, hT, hC, hD⟩ := hmsgs 0 (by simp)
    simp only [List.getElem_cons_zero] at hn hT hC hD
    obtain ⟨d, hd⟩ := Option.isSome_iff_exists.mp hD
    have hC0 : m.Chunk = 0 := by simpa using hC
    have hfirst := handleUploadMessage_first env wt w m workDir d (by rw [hn]; exact hname)
      hC0 (by rw [hT]; simp) hwd hopen hwrite hd
    have hfile : handleUploadFile lib env wt w p = handleUploadMessage env wt w m := by
      simp [handleUploadFile, hp]
    rw [hn] at hfirst
    simp only [handleUploadFiles, hfile]
    by_cases hms : ms = []
    · subst hms
      cases hrest
      have h1 : m.TotalChunks = 1 := by rw [hT]; simp
      have h2 := hfirst.2
      rw [if_pos h1] at h2
      obtain ⟨c1, c2, c3⟩ := h2
      simp [handleUploadFiles, hfirst.1, decodedChunks, hd, c1, c2, c3]
    · have hpos : 0 < ms.length := List.length_pos.mpr hms
      have h1 : ¬ m.TotalChunks = 1 := by rw [hT]; simp [hms]
      have h2 := hfirst.2
      rw [if_neg h1] at h2
      obtain ⟨h, ht⟩ := h2
      have hrec := handleUploadFiles_rest lib env name (Join workDir name) (m :: ms).length
        hname hwrite ms ps 1 h d _ _ hms hrest (by omega) (by simp; omega)
        (fun j hj => by
          have := hmsgs (j + 1) (by simp; omega)
          simp only [List.getElem_cons_succ] at this
          have e : 1 + j = j + 1 := by omega
          rw [e]
          exact this) (by simpa using ht)
      obtain ⟨r1, c1, c2, c3⟩ := hrec
      refine ⟨?_, ?_, c1, ?_⟩
      · simp [hfirst.1, r1, List.replicate_succ]
      · simpa [decodedChunks, hd] using c3
      · simpa [decodedChunks, hd] using c2

theorem upload_sequence_reconstructs_file_witness :
    (handleUploadFiles (tableLib abcUploads []) (quietEnv (ascii "/tmp"))
        { New with permitWrite := true } emptyWorld (abcUploads.map Prod.fst)).1
        = [none, none, none] ∧
      fsLookup (ascii "/tmp/a.txt")
        (handleUploadFiles (tableLib abcUploads []) (quietEnv (ascii "/tmp"))
          { New with permitWrite := true } emptyWorld (abcUploads.map Prod.fst)).2.2.files
        = some (ascii "ABC") ∧
      (handleUploadFiles (tableLib abcUploads []) (quietEnv (ascii "/tmp"))
          { New with permitWrite := true } emptyWorld (abcUploads.map Prod.fst)).2.1.uploadFile
        = none := by
  have h := upload_sequence_reconstructs_file (tableLib abcUploads []) (quietEnv (ascii "/tmp"))
    { New with permitWrite := true } emptyWorld (ascii "a.txt") (ascii "/tmp")
    (abcUploads.map Prod.fst) (abcUploads.map Prod.snd) (by decide) (fun _ => rfl)
    (fun _ => rfl) (fun _ => rfl) (by decide)
    (List.Forall₂.cons (by decide) (List.Forall₂.cons (by decide)
      (List.Forall₂.cons (by decide) List.Forall₂.nil)))
    (by decide)
  have e1 : Join (ascii "/tmp") (ascii "a.txt") = ascii "/tmp/a.txt" := by decide
  have e2 : decodedChunks (abcUploads.map Prod.snd) = ascii "ABC" := by decide
  rw [e1, e2] at h
  exact ⟨h.1, h.2.1, h.2.2.1⟩

/-! ### Filename validation and chunk numbers -/

theorem Contains_iff (s sub : Bytes) : Contains s sub = true ↔ sub <:+: s := by
  induction s with
  | nil => simp [Contains, List.isPrefixOf_iff_prefix]
  | cons c s ih =>
    simp [Contains, List.isPrefixOf_iff_prefix, ih, List.infix_cons_iff]

theorem HasPrefix_iff (s p : Bytes) : HasPrefix s p = true ↔ p <+: s := by
  simp [HasPrefix, List.isPrefixOf_iff_prefix]

/-- C2. For every filename that is empty, begins with `/`, contains `..`, or
whose final path component (`filepath.Base`) is `.` or `..`,
`validateFileName` returns an error, and `handleUploadFile` on an upload
message with that name returns that error, whatever the chunk index and
whatever the Slave would report as working directory; the session and the
world are exactly as before, so the working directory was not asked for, no
file was opened and the upload state did not change. -/
theorem unsafe_filename_rejected (lib : Lib) (env : Env) (wt : WebTTY) (w : World)
    (payload : Bytes) (msg : UploadFileMessage)
    (hparse : lib.unmarshalUpload payload = some msg)
    (hbad : msg.Name = [] ∨ ascii "/" <+: msg.Name ∨ ascii ".." <:+: msg.Name ∨
      Base msg.Name = ascii "." ∨ Base msg.Name = ascii "..") :
    (∃ e, validateFileName msg.Name = some e ∧
      handleUploadFile lib env wt w payload = (some (UploadError.invalidFilename e), wt, w)) := by
  have hv : ∃ e, validateFileName msg.Name = some e := by
    unfold validateFileName
    by_cases h1 : msg.Name = []
    · exact ⟨_, if_pos h1⟩
    rw [if_neg h1]
    by_cases h2 : (HasPrefix msg.Name (ascii "/") || HasPrefix msg.Name (ascii "\\")) = true
    · exact ⟨_, if_pos h2⟩
    rw [if_neg h2]
    by_cases h3 : Contains msg.Name (ascii "..") = true
    · exact ⟨_, if_pos h3⟩
    rw [if_neg h3]
    by_cases h4 : Base msg.Name = ascii "." ∨ Base msg.Name = ascii ".."
    · exact ⟨_, if_pos h4⟩
    exfalso
    rcases hbad with h | h | h | h | h
    · exact h1 h
    · exact h2 (by simp [(HasPrefix_iff _ _).mpr h])
    · exact h3 ((Contains_iff _ _).mpr h)
    · exact h4 (Or.inl h)
    · exact h4 (Or.inr h)
  obtain ⟨e, he⟩ := hv
  exact ⟨e, he, by simp [handleUploadFile, hparse, handleUploadMessage, he]⟩

theorem unsafe_filename_rejected_witness :
    ∃ e, validateFileName (ascii "../etc/passwd") = some e ∧
      handleUploadFile (tableLib [(ascii "x", chunkMessage "../etc/passwd" 0 1 "QQ==")] [])
        (quietEnv (ascii "/tmp")) { New with permitWrite := true } emptyWorld (ascii "x")
        = (some (UploadError.invalidFilename e), { New with permitWrite := true }, emptyWorld) :=
  unsafe_filename_rejected (tableLib [(ascii "x", chunkMessage "../etc/passwd" 0 1 "QQ==")] [])
    (quietEnv (ascii "/tmp")) { New with permitWrite := true } emptyWorld (ascii "x")
    (chunkMessage "../etc/passwd" 0 1 "QQ==") (by decide) (Or.inr (Or.inr (Or.inl (by decide))))

/-- C4, counterexample. With chunks 0 and 1 of `a.txt` accepted (counter 2,
file `AB`), a valid chunk with index 0, which differs from the counter, is
not refused as out of order: `handleUploadFile` returns no error and the
destination file is truncated and holds `A`. -/
theorem chunk_zero_mid_transfer_restarts :
    abcAfterTwo.2.1.uploadFile = some 0 ∧ abcAfterTwo.2.1.uploadChunks = 2 ∧
      fsLookup (ascii "/tmp/a.txt") abcAfterTwo.2.2.files = some (ascii "AB") ∧
      validateFileName (chunkMessage "a.txt" 0 3 "QQ==").Name = none ∧
      (chunkMessage "a.txt" 0 3 "QQ==").Chunk ≠ abcAfterTwo.2.1.uploadChunks ∧
      (handleUploadFile (tableLib abcUploads []) (quietEnv (ascii "/tmp")) abcAfterTwo.2.1
        abcAfterTwo.2.2 (ascii "chunk 0/3 a.txt QQ==")).1 = none ∧
      fsLookup (ascii "/tmp/a.txt")
        (handleUploadFile (tableLib abcUploads []) (quietEnv (ascii "/tmp")) abcAfterTwo.2.1
          abcAfterTwo.2.2 (ascii "chunk 0/3 a.txt QQ==")).2.2.files = some (ascii "A") := by
  decide

/-- C4, amended. For every session state with chunk counter c and every
otherwise valid upload message (valid filename, 0 <= chunk < totalChunks)
whose chunk index differs from c and is not 0, `handleUploadFile` returns the
out-of-order error, and the session and the world (so the destination file on
disk too) are exactly as before. -/
theorem out_of_order_chunk_rejected (lib : Lib) (env : Env) (wt : WebTTY) (w : World)
    (payload : Bytes) (msg : UploadFileMessage)
    (hparse : lib.unmarshalUpload payload = some msg)
    (hname : validateFileName msg.Name = none)
    (hpos : 0 < msg.Chunk) (hlt : msg.Chunk < msg.TotalChunks)
    (hne : msg.Chunk ≠ wt.uploadChunks) :
    handleUploadFile lib env wt w payload
      = (some (UploadError.outOfOrder wt.uploadChunks msg.Chunk), wt, w) := by
  have h0 : msg.Chunk ≠ 0 := by omega
  simp only [handleUploadFile, hparse]
  rw [handleUploadMessage_valid env wt wt w w msg hname (by omega) hlt
    (uploadFirstChunk_pos env wt w msg h0)]
  simp [uploadAppend, hne]

theorem out_of_order_chunk_rejected_witness :
    handleUploadFile (tableLib abcUploads []) (quietEnv (ascii "/tmp")) abcAfterTwo.2.1
        abcAfterTwo.2.2 (ascii "chunk 1/3 a.txt Qg==")
      = (some (UploadError.outOfOrder 2 1), abcAfterTwo.2.1, abcAfterTwo.2.2) :=
  out_of_order_chunk_rejected (tableLib abcUploads []) (quietEnv (ascii "/tmp")) abcAfterTwo.2.1
    abcAfterTwo.2.2 (ascii "chunk 1/3 a.txt Qg==") (chunkMessage "a.txt" 1 3 "Qg==")
    (by decide) (by decide) (by decide) (by decide) (by decide)

/-- C5. For every session state and every upload message with
totalChunks <= 0, chunk < 0 or chunk >= totalChunks, `handleUploadFile`
returns an error and leaves the session (file handle, filename, chunk counter,
working directory) and the world (the file system included) exactly as they
were. -/
theorem invalid_chunk_numbers_rejected (lib : Lib) (env : Env) (wt : WebTTY) (w : World)
    (payload : Bytes) (msg : UploadFileMessage)
    (hparse : lib.unmarshalUpload payload = some msg)
    (hbad : msg.TotalChunks ≤ 0 ∨ msg.Chunk < 0 ∨ msg.Chunk ≥ msg.TotalChunks) :
    ∃ e, handleUploadFile lib env wt w payload = (some e, wt, w) := by
  simp only [handleUploadFile, hparse, handleUploadMessage]
  cases hv : validateFileName msg.Name with
  | some e => exact ⟨_, rfl⟩
  | none =>
    by_cases h1 : msg.TotalChunks ≤ 0
    · exact ⟨UploadError.invalidTotalChunks, by simp [h1]⟩
    · have h2 : msg.Chunk < 0 ∨ msg.Chunk ≥ msg.TotalChunks := by
        rcases hbad with h | h | h
        · exact absurd h h1
        · exact Or.inl h
        · exact Or.inr h
      exact ⟨UploadError.invalidChunkIndex msg.Chunk, by simp [h1, h2]⟩

theorem invalid_chunk_numbers_rejected_witness :
    ∃ e, handleUploadFile (tableLib [(ascii "x", chunkMessage "a.txt" 3 3 "QQ==")] [])
        (quietEnv (ascii "/tmp")) abcAfterTwo.2.1 abcAfterTwo.2.2 (ascii "x")
      = (some e, abcAfterTwo.2.1, abcAfterTwo.2.2) :=
  invalid_chunk_numbers_rejected (tableLib [(ascii "x", chunkMessage "a.txt" 3 3 "QQ==")] [])
    (quietEnv (ascii "/tmp")) abcAfterTwo.2.1 abcAfterTwo.2.2 (ascii "x")
    (chunkMessage "a.txt" 3 3 "QQ==") (by decide) (Or.inr (Or.inr (by decide)))

/-! ### Dispatch of Master messages -/

/-- The six tags that a Master sends are pairwise different. -/
theorem MessageTypes.ne (mt : MessageTypes) :
    mt.Input ≠ mt.Ping ∧ mt.Input ≠ mt.SetEncoding ∧ mt.Input ≠ mt.ResizeTerminal ∧
    mt.Input ≠ mt.UploadFile ∧ mt.Input ≠ mt.UploadCancel ∧
    mt.Ping ≠ mt.SetEncoding ∧ mt.Ping ≠ mt.ResizeTerminal ∧ mt.Ping ≠ mt.UploadFile ∧
    mt.Ping ≠ mt.UploadCancel ∧ mt.SetEncoding ≠ mt.ResizeTerminal ∧
    mt.SetEncoding ≠ mt.UploadFile ∧ mt.SetEncoding ≠ mt.UploadCancel ∧
    mt.ResizeTerminal ≠ mt.UploadFile ∧ mt.ResizeTerminal ≠ mt.UploadCancel ∧
    mt.UploadFile ≠ mt.UploadCancel := by
  have h := mt.distinct
  simp only [List.nodup_cons, List.mem_cons, List.mem_singleton, not_or, List.not_mem_nil,
    not_false_eq_true, List.nodup_nil, and_true] at h
  tauto

/-- One message handled without write permission, from an idle upload state:
write permission stays off, the upload state stays idle, the Slave and the
files are untouched, and an Input or UploadFile message returns no error. -/
theorem readonly_step (mt : MessageTypes) (lib : Lib) (env : Env) (wt : WebTTY) (w : World)
    (data : Bytes) (hp : wt.permitWrite = false) (hi : UploadIdle wt) :
    (handleMasterReadEvent mt lib env wt w data).2.1.permitWrite = false ∧
      UploadIdle (handleMasterReadEvent mt lib env wt w data).2.1 ∧
      SlaveAndFilesUntouched w (handleMasterReadEvent mt lib env wt w data).2.2 ∧
      (data.head? = some mt.Input ∨ data.head? = some mt.UploadFile →
        (handleMasterReadEvent mt lib env wt w data).1 = none) := by
  obtain ⟨n1, n2, n3, n4, n5, n6, n7, n8, n9, n10, n11, n12, n13, n14, n15⟩ := mt.ne
  obtain ⟨i1, i2, i3, i4⟩ := hi
  cases data with
  | nil => simp [handleMasterReadEvent, hp, UploadIdle, SlaveAndFilesUntouched, i1, i2, i3, i4]
  | cons tag payload =>
    unfold handleMasterReadEvent
    simp only [hp, if_true, i1]
    split_ifs <;>
      first
      | (simp_all [UploadIdle, SlaveAndFilesUntouched, masterWrite]; done)
      | (split <;> simp_all [UploadIdle, SlaveAndFilesUntouched, masterWrite])


theorem SlaveAndFilesUntouched.trans {w w1 w2 : World} (h1 : SlaveAndFilesUntouched w w1)
    (h2 : SlaveAndFilesUntouched w1 w2) : SlaveAndFilesUntouched w w2 := by
  obtain ⟨slave, files, handles, opens, writes, removes⟩ := h1
  obtain ⟨slave2, files2, handles2, opens2, writes2, removes2⟩ := h2
  exact ⟨slave2.trans slave, files2.trans files, handles2.trans handles, opens2.trans opens,
    writes2.trans writes, removes2.trans removes⟩

/-- C6. When write permission is disabled, for every finite sequence of
Master messages handled by the Master read loop from a session whose upload
state is the initial one: nothing is written to the Slave, no file is opened,
written, truncated, closed or deleted, the upload state stays in its initial
value, and every Input and UploadFile message handled returns no error. -/
theorem write_disabled_touches_nothing (mt : MessageTypes) (lib : Lib) (env : Env)
    (wt : WebTTY) (w : World) (msgs : List Bytes)
    (hp : wt.permitWrite = false) (hi : UploadIdle wt) :
    SlaveAndFilesUntouched w (masterReadLoop mt lib env wt w msgs).2.2 ∧
      UploadIdle (masterReadLoop mt lib env wt w msgs).2.1 ∧
      ∀ dr ∈ msgs.zip (masterReadLoop mt lib env wt w msgs).1,
        dr.1.head? = some mt.Input ∨ dr.1.head? = some mt.UploadFile → dr.2 = none := by
  induction msgs generalizing wt w with
  | nil => exact ⟨⟨rfl, rfl, rfl, rfl, rfl, rfl⟩, hi, by simp [masterReadLoop]⟩
  | cons data more ih =>
    obtain ⟨s1, s2, s3, s4⟩ := readonly_step mt lib env wt w data hp hi
    rcases hr : handleMasterReadEvent mt lib env wt w data with ⟨e, wt1, w1⟩
    rw [hr] at s1 s2 s3 s4
    simp only at s1 s2 s3 s4
    cases e with
    | some e =>
      simp only [masterReadLoop, hr]
      refine ⟨s3, s2, ?_⟩
      intro dr hdr hd
      simp only [List.zip_cons_cons, List.zip_nil_right, List.mem_singleton] at hdr
      subst hdr
      exact s4 hd
    | none =>
      obtain ⟨r1, r2, r3⟩ := ih wt1 w1 s1 s2
      simp only [masterReadLoop, hr]
      refine ⟨s3.trans r1, r2, ?_⟩
      intro dr hdr hd
      simp only [List.zip_cons_cons, List.mem_cons] at hdr
      rcases hdr with h | h
      · subst h; rfl
      · exact r3 dr h hd


theorem write_disabled_touches_nothing_witness :
    New.permitWrite = false ∧ UploadIdle New ∧
      SlaveAndFilesUntouched emptyWorld
        (masterReadLoop sampleTypes (tableLib abcUploads []) (quietEnv (ascii "/tmp")) New
          emptyWorld [ascii "1ls", ascii "5chunk 0/3 a.txt QQ==", ascii "6"]).2.2 :=
  ⟨rfl, ⟨rfl, rfl, rfl, rfl⟩,
    (write_disabled_touches_nothing sampleTypes (tableLib abcUploads [])
      (quietEnv (ascii "/tmp")) New emptyWorld
      [ascii "1ls", ascii "5chunk 0/3 a.txt QQ==", ascii "6"] rfl ⟨rfl, rfl, rfl, rfl⟩).1⟩

/-! ### Start-up -/

theorem sendInitializeMessage_ok (mt : MessageTypes) (env : Env) (wt : WebTTY) (w : World)
    (hok : ∀ k, k < (initSequence mt wt).length →
      env.masterWriteFails (w.masterWrites.length + k) = false) :
    sendInitializeMessage mt env wt w
      = (none, { w with masterWrites := w.masterWrites ++ initSequence mt wt }) := by
  have h0 := hok 0
  have h1 := hok 1
  have h2 := hok 2
  have h3 := hok 3
  unfold sendInitializeMessage
  cases hprefs : wt.masterPrefs <;> by_cases hr : 0 < wt.reconnect <;>
    simp only [initSequence, gt_iff_lt, hr, if_true, if_false, hprefs] at * <;>
    simp_all [masterWrite, Nat.add_assoc]

theorem sendInitializeMessage_fails (mt : MessageTypes) (env : Env) (wt : WebTTY) (w : World)
    (k : Nat) (hk : k < (initSequence mt wt).length)
    (hok : ∀ j, j < k → env.masterWriteFails (w.masterWrites.length + j) = false)
    (hfail : env.masterWriteFails (w.masterWrites.length + k) = true) :
    ∃ e, sendInitializeMessage mt env wt w
      = (some e, { w with masterWrites := w.masterWrites ++ (initSequence mt wt).take (k + 1) }) := by
  have h0 := hok 0
  have h1 := hok 1
  have h2 := hok 2
  unfold sendInitializeMessage
  cases hprefs : wt.masterPrefs <;> by_cases hr : 0 < wt.reconnect <;>
    simp only [initSequence, gt_iff_lt, hr, if_true, if_false, hprefs, List.length_append,
      List.length_cons, List.length_nil] at * <;>
    interval_cases k <;>
    simp_all [masterWrite, Nat.add_assoc]

/-- C7. When every Master write succeeds, `sendInitializeMessage` writes to
the Master exactly the start-up sequence, in order and nothing else
(SetWindowTitle with the title; SetBufferSize with the JSON of the buffer
size; SetReconnect with the JSON of the interval if and only if it is > 0;
SetPreferences with the blob if and only if one is configured) and returns no
error, and `Run` goes on to the relay loops. If the k-th write is the first
that fails, the messages written are the first k+1 of the sequence (the last
of them being the failed write), no later message is written, an error is
returned, and `Run` returns that error before any relay loop starts, the
world being otherwise untouched. -/
theorem startup_sequence (mt : MessageTypes) (env : Env) (wt : WebTTY) (w : World) :
    ((∀ k, k < (initSequence mt wt).length →
        env.masterWriteFails (w.masterWrites.length + k) = false) →
      sendInitializeMessage mt env wt w
        = (none, { w with masterWrites := w.masterWrites ++ initSequence mt wt }) ∧
      Run mt env wt w
        = RunStart.relays { w with masterWrites := w.masterWrites ++ initSequence mt wt }) ∧
    (∀ k, k < (initSequence mt wt).length →
      (∀ j, j < k → env.masterWriteFails (w.masterWrites.length + j) = false) →
      env.masterWriteFails (w.masterWrites.length + k) = true →
      ∃ e, sendInitializeMessage mt env wt w
          = (some e, { w with
              masterWrites := w.masterWrites ++ (initSequence mt wt).take (k + 1) }) ∧
        Run mt env wt w
          = RunStart.failed e { w with
              masterWrites := w.masterWrites ++ (initSequence mt wt).take (k + 1) }) := by
  refine ⟨fun hok => ?_, fun k hk hok hfail => ?_⟩
  · have h := sendInitializeMessage_ok mt env wt w hok
    exact ⟨h, by simp [Run, h]⟩
  · obtain ⟨e, h⟩ := sendInitializeMessage_fails mt env wt w k hk hok hfail
    exact ⟨e, h, by simp [Run, h]⟩

theorem startup_sequence_witness :
    (sendInitializeMessage sampleTypes (quietEnv []) configuredSession emptyWorld
        = (none, { emptyWorld with
            masterWrites := emptyWorld.masterWrites
              ++ initSequence sampleTypes configuredSession })) ∧
      (∃ e, sendInitializeMessage sampleTypes (masterFailsAt 2) configuredSession emptyWorld
        = (some e, { emptyWorld with
            masterWrites := emptyWorld.masterWrites
              ++ (initSequence sampleTypes configuredSession).take (2 + 1) })) :=
  ⟨((startup_sequence sampleTypes (quietEnv []) configuredSession emptyWorld).1
      (fun _ _ => rfl)).1,
    ((startup_sequence sampleTypes (masterFailsAt 2) configuredSession emptyWorld).2 2
      (by decide) (by decide) (by decide)).imp (fun _ h => h.1)⟩

/-! ### Resize -/

/-- C8. When the session is configured with fixed columns != 0 and fixed
rows != 0, for every ResizeTerminal message, whatever its payload (empty,
malformed or well-formed), `handleMasterReadEvent` returns no error, does not
call the Slave's resize operation, and leaves the session and the world
unchanged. -/
theorem resize_ignored_when_fixed (mt : MessageTypes) (lib : Lib) (env : Env) (wt : WebTTY)
    (w : World) (payload : Bytes) (hc : wt.columns ≠ 0) (hr : wt.rows ≠ 0) :
    handleMasterReadEvent mt lib env wt w (mt.ResizeTerminal :: payload) = (none, wt, w) := by
  obtain ⟨n1, n2, n3, n4, n5, n6, n7, n8, n9, n10, n11, n12, n13, n14, n15⟩ := mt.ne
  simp [handleMasterReadEvent, hc, hr, n3.symm, n7.symm, n10.symm]

/-- C9. When at least one of the fixed dimensions is 0 and the payload of a
ResizeTerminal message parses to Columns c and Rows r, `handleMasterReadEvent`
returns no error and calls the Slave's resize operation exactly once, with
columns = the fixed columns if that is non-zero and `int(c)` otherwise, and
rows = the fixed rows if that is non-zero and `int(r)` otherwise; the session
is unchanged. -/
theorem resize_uses_unfixed_axes (mt : MessageTypes) (lib : Lib) (env : Env) (wt : WebTTY)
    (w : World) (payload : Bytes) (args : argResizeTerminal lib.Float64)
    (hfree : wt.columns = 0 ∨ wt.rows = 0)
    (hparse : lib.unmarshalResize payload = some args) :
    handleMasterReadEvent mt lib env wt w (mt.ResizeTerminal :: payload)
      = (none, wt,
          { w with resizes := w.resizes ++
              [(if wt.columns ≠ 0 then wt.columns else lib.toInt args.Columns,
                if wt.rows ≠ 0 then wt.rows else lib.toInt args.Rows)] }) := by
  obtain ⟨n1, n2, n3, n4, n5, n6, n7, n8, n9, n10, n11, n12, n13, n14, n15⟩ := mt.ne
  have hne : payload ≠ [] := by
    intro h
    rw [h, lib.unmarshalResize_nil] at hparse
    exact Option.noConfusion hparse
  have hfix : ¬ (wt.columns ≠ 0 ∧ wt.rows ≠ 0) := by
    rcases hfree with h | h <;> simp [h]
  unfold handleMasterReadEvent
  simp only [n3.symm, n7.symm, n10.symm, if_false, hfix, hne, hparse]
  by_cases h1 : wt.columns = 0 <;> by_cases h2 : wt.rows = 0 <;> simp [h1, h2]


theorem resize_ignored_when_fixed_witness :
    handleMasterReadEvent sampleTypes demoLib (quietEnv []) { New with columns := 80, rows := 24 }
        emptyWorld (sampleTypes.ResizeTerminal :: ascii "junk")
      = (none, { New with columns := 80, rows := 24 }, emptyWorld) :=
  resize_ignored_when_fixed sampleTypes demoLib (quietEnv []) { New with columns := 80, rows := 24 }
    emptyWorld (ascii "junk") (by decide) (by decide)

theorem resize_uses_unfixed_axes_witness :
    (handleMasterReadEvent sampleTypes demoLib (quietEnv []) { New with columns := 100 }
        emptyWorld (sampleTypes.ResizeTerminal :: ascii "80x24")).2.2.resizes = [(100, 24)] :=
  congrArg (fun r => r.2.2.resizes)
    (resize_uses_unfixed_axes sampleTypes demoLib (quietEnv []) { New with columns := 100 }
      emptyWorld (ascii "80x24") (⟨(80 : Int), (24 : Int)⟩ : argResizeTerminal Int)
      (Or.inr rfl) rfl)

/-! ### Cancel -/

/-- C10, counterexample. A transfer of `a.txt` is in progress (chunk 0 of 3
accepted, the file holds `A`) and an UploadCancel message arrives. When the
Slave had reported the empty string as its working directory, the partial
file is not removed: it still holds `A`. When `os.Remove` fails, the partial
file still exists too. -/
theorem cancel_leaves_partial_file :
    -- the Slave reports the empty string as its working directory
    ((abcAfterOne (quietEnv [])).2.1.uploadFile = some 0 ∧
      fsLookup (Join [] (ascii "a.txt")) (abcAfterOne (quietEnv [])).2.2.files = some (ascii "A") ∧
      fsLookup (Join [] (ascii "a.txt"))
        (handleMasterReadEvent sampleTypes (tableLib abcUploads []) (quietEnv [])
          (abcAfterOne (quietEnv [])).2.1 (abcAfterOne (quietEnv [])).2.2
          [sampleTypes.UploadCancel]).2.2.files = some (ascii "A")) ∧
    -- the removal of the file fails
    ((abcAfterOne (stickyEnv (ascii "/tmp"))).2.1.uploadFile = some 0 ∧
      fsLookup (Join (ascii "/tmp") (ascii "a.txt"))
        (handleMasterReadEvent sampleTypes (tableLib abcUploads []) (stickyEnv (ascii "/tmp"))
          (abcAfterOne (stickyEnv (ascii "/tmp"))).2.1 (abcAfterOne (stickyEnv (ascii "/tmp"))).2.2
          [sampleTypes.UploadCancel]).2.2.files = some (ascii "A")) := by
  decide

theorem closeFile_frame (w : World) (h : Nat) :
    (closeFile w h).files = w.files ∧ (closeFile w h).removeCalls = w.removeCalls ∧
      (closeFile w h).openCalls = w.openCalls ∧ (closeFile w h).workDirCalls = w.workDirCalls ∧
      (closeFile w h).fileWriteCalls = w.fileWriteCalls ∧
      (closeFile w h).masterWrites = w.masterWrites ∧
      (closeFile w h).slaveWrites = w.slaveWrites ∧ (closeFile w h).resizes = w.resizes ∧
      (closeFile w h).handles.length = w.handles.length := by
  unfold closeFile
  cases w.handles[h]? <;> simp

theorem upload_cancel (mt : MessageTypes) (lib : Lib) (env : Env) (wt : WebTTY) (w : World)
    (payload : Bytes) :
    (∀ h, wt.uploadFile = some h → wt.uploadFileName ≠ [] → wt.uploadWorkDir ≠ [] →
      env.removeFails w.removeCalls = false →
      (handleMasterReadEvent mt lib env wt w (mt.UploadCancel :: payload)).1 = none ∧
      (handleMasterReadEvent mt lib env wt w (mt.UploadCancel :: payload)).2.1
        = { wt with uploadFile := none, uploadFileName := [], uploadChunks := 0,
                    uploadWorkDir := [] } ∧
      (handleMasterReadEvent mt lib env wt w (mt.UploadCancel :: payload)).2.2.handles
        = (closeFile w h).handles ∧
      fsLookup (Join wt.uploadWorkDir wt.uploadFileName)
        (handleMasterReadEvent mt lib env wt w (mt.UploadCancel :: payload)).2.2.files = none) ∧
    (wt.uploadFile = none →
      handleMasterReadEvent mt lib env wt w (mt.UploadCancel :: payload) = (none, wt, w)) := by
  obtain ⟨n1, n2, n3, n4, n5, n6, n7, n8, n9, n10, n11, n12, n13, n14, n15⟩ := mt.ne
  refine ⟨fun h hf hn hd hrm => ?_, fun hf => ?_⟩
  · simp [handleMasterReadEvent, n5.symm, n9.symm, n12.symm, n14.symm, n15.symm, hf, hn, hd,
      osRemove, hrm, closeFile_frame, fsLookup_fsRemove_self]
  · simp [handleMasterReadEvent, n5.symm, n9.symm, n12.symm, n14.symm, n15.symm, hf]

theorem uploadAppend_fields (env : Env) (wt : WebTTY) (w : World) (msg : UploadFileMessage)
    (hok : (uploadAppend env wt w msg).1 = none) :
    (uploadAppend env wt w msg).2.1.uploadFileName = wt.uploadFileName ∧
      (uploadAppend env wt w msg).2.1.uploadChunks = wt.uploadChunks + 1 ∧
      (uploadAppend env wt w msg).2.1.permitWrite = wt.permitWrite := by
  by_cases h1 : msg.Chunk ≠ wt.uploadChunks
  · simp [uploadAppend, h1] at hok
  · have h2 : msg.Chunk = wt.uploadChunks := not_not.mp h1
    cases hd : DecodeString msg.Data with
    | none => simp [uploadAppend, h2, hd] at hok
    | some d =>
      cases hf : wt.uploadFile with
      | none =>
        by_cases hl : wt.uploadChunks = msg.TotalChunks - 1 <;>
          simp [uploadAppend, h2, hd, hf, hl]
      | some h =>
        by_cases hw : (fileWrite env w h d).1 = false
        · simp [uploadAppend, h2, hd, hf, hw] at hok
        · by_cases hl : wt.uploadChunks = msg.TotalChunks - 1 <;>
            simp [uploadAppend, h2, hd, hf, hw, hl]

theorem uploadFirstChunk_fields (env : Env) (wt : WebTTY) (w : World)
    (msg : UploadFileMessage) (h0 : msg.Chunk = 0)
    (hok : (uploadFirstChunk env wt w msg).1 = none) :
    (uploadFirstChunk env wt w msg).2.1.uploadFileName = msg.Name ∧
      (uploadFirstChunk env wt w msg).2.1.uploadChunks = 0 ∧
      (uploadFirstChunk env wt w msg).2.1.permitWrite = wt.permitWrite := by
  cases hwd : env.getWorkingDir w.workDirCalls with
  | none =>
    cases hf : wt.uploadFile <;>
      simp [uploadFirstChunk, h0, hwd, hf, closeFile_frame] at hok
  | some workDir =>
    by_cases ho : env.openFails w.openCalls = true
    · cases hf : wt.uploadFile <;>
        simp [uploadFirstChunk, h0, hwd, osOpenFile, ho, hf, closeFile_frame] at hok
    · cases hf : wt.uploadFile <;>
        simp [uploadFirstChunk, h0, hwd, osOpenFile, ho, hf, closeFile_frame]

theorem handleUploadMessage_first_fields (env : Env) (wt : WebTTY) (w : World)
    (msg : UploadFileMessage)
    (hname : validateFileName msg.Name = none) (h0 : msg.Chunk = 0)
    (hlt : 0 < msg.TotalChunks) (hok : (handleUploadMessage env wt w msg).1 = none) :
    (handleUploadMessage env wt w msg).2.1.uploadFileName = msg.Name ∧
      (handleUploadMessage env wt w msg).2.1.uploadChunks = 1 ∧
      (handleUploadMessage env wt w msg).2.1.permitWrite = wt.permitWrite := by
  rcases hr : uploadFirstChunk env wt w msg with ⟨e, wt1, w1⟩
  have h1 : ¬ msg.TotalChunks ≤ 0 := by omega
  have h2 : ¬ (msg.Chunk < 0 ∨ msg.Chunk ≥ msg.TotalChunks) := by omega
  cases e with
  | some e => simp [handleUploadMessage, hname, h1, h2, hr] at hok
  | none =>
    rw [handleUploadMessage_valid env wt wt1 w w1 msg hname (by omega) (by omega) hr] at hok ⊢
    obtain ⟨a1, a2, a3⟩ := uploadAppend_fields env wt1 w1 msg hok
    have hf := uploadFirstChunk_fields env wt w msg h0 (by rw [hr])
    rw [hr] at hf
    obtain ⟨b1, b2, b3⟩ := hf
    simp only at b1 b2 b3
    exact ⟨a1.trans b1, by rw [a2, b2]; rfl, a3.trans b3⟩

theorem handleMasterReadEvent_upload (mt : MessageTypes) (lib : Lib) (env : Env) (wt : WebTTY)
    (w : World) (payload : Bytes) (msg : UploadFileMessage)
    (hp : wt.permitWrite = true) (hparse : lib.unmarshalUpload payload = some msg) :
    (handleMasterReadEvent mt lib env wt w (mt.UploadFile :: payload)).1
        = (handleUploadMessage env wt w msg).1.map MasterEventError.upload ∧
      (handleMasterReadEvent mt lib env wt w (mt.UploadFile :: payload)).2
        = (handleUploadMessage env wt w msg).2 := by
  obtain ⟨n1, n2, n3, n4, n5, n6, n7, n8, n9, n10, n11, n12, n13, n14, n15⟩ := mt.ne
  have hne : payload ≠ [] := by
    intro h
    rw [h, lib.unmarshalUpload_nil] at hparse
    exact Option.noConfusion hparse
  unfold handleMasterReadEvent
  simp only [n4.symm, n8.symm, n11.symm, n13.symm, if_false, hp, hne, handleUploadFile, hparse]
  rcases handleUploadMessage env wt w msg with ⟨_ | e, wt1, w1⟩ <;> simp

theorem closeFile_getElem (w : World) (h : Nat) (fd : FileDesc) (hfd : w.handles[h]? = some fd) :
    (closeFile w h).handles[h]? = some { fd with closes := fd.closes + 1 } := by
  have hlt : h < w.handles.length := by
    by_contra hge
    rw [List.getElem?_eq_none (by omega)] at hfd
    exact Option.noConfusion hfd
  simp [closeFile, hfd, hlt]

/-! ### The destination path: `filepath.Clean` and `filepath.Join` -/

theorem atElemEnd_append_sep (P Q : Bytes) :
    atElemEnd (P ++ Separator :: Q) = atElemEnd P := by
  cases P <;> simp [atElemEnd]

theorem cleanLoop_sep (rooted copying : Bool) (rest out : Bytes) (dotdot : Nat) :
    cleanLoop rooted (Separator :: rest) copying out dotdot
      = cleanLoop rooted rest false out dotdot := by
  cases copying <;> cases rest <;> simp [cleanLoop]

theorem cleanLoop_copy (rooted : Bool) (c : Nat) (rest out : Bytes) (dotdot : Nat)
    (hc : c ≠ Separator) :
    cleanLoop rooted (c :: rest) true out dotdot
      = cleanLoop rooted rest true (out ++ [c]) dotdot := by
  simp [cleanLoop, hc]

theorem cleanLoop_dot (rooted : Bool) (rest out : Bytes) (dotdot : Nat)
    (hend : atElemEnd rest = true) :
    cleanLoop rooted (Dot :: rest) false out dotdot
      = cleanLoop rooted rest false out dotdot := by
  cases rest <;> simp [cleanLoop, hend, Dot, Separator]

/-- A real path element begins: the separator is written if needed and the
element is copied. -/
theorem cleanLoop_elem (rooted : Bool) (c : Nat) (rest out : Bytes) (dotdot : Nat)
    (hc : c ≠ Separator) (hdot : ¬ (c = Dot ∧ atElemEnd rest = true))
    (hdd : ¬ (c = Dot ∧ ∃ rest2, rest = Dot :: rest2 ∧ atElemEnd rest2 = true)) :
    cleanLoop rooted (c :: rest) false out dotdot
      = cleanLoop rooted rest true
          (if needSep rooted out then out ++ [Separator] ++ [c] else out ++ [c]) dotdot := by
  cases rest with
  | nil => simp [cleanLoop, hc, hdot]
  | cons d rest2 =>
    have h : ¬ (c = Dot ∧ d = Dot ∧ atElemEnd rest2 = true) := by
      rintro ⟨h1, h2, h3⟩
      exact hdd ⟨h1, rest2, by rw [h2], h3⟩
    simp only [cleanLoop, hc, hdot, h, if_false]

theorem cleanLoop_dotdot (rooted : Bool) (rest2 out : Bytes) (dotdot : Nat)
    (hend : atElemEnd rest2 = true) :
    cleanLoop rooted (Dot :: Dot :: rest2) false out dotdot
      = if dotdot < out.length then cleanLoop rooted rest2 false (backtrack dotdot out) dotdot
        else if rooted = false then
          cleanLoop rooted rest2 false
            ((if 0 < out.length then out ++ [Separator] else out) ++ [Dot, Dot])
            ((if 0 < out.length then out ++ [Separator] else out) ++ [Dot, Dot]).length
        else cleanLoop rooted rest2 false out dotdot := by
  have h1 : ¬ (Dot = Separator) := by decide
  have h2 : atElemEnd (Dot :: rest2) = false := by
    simp [atElemEnd, Dot, Separator]
  simp [cleanLoop, h1, h2, hend]

/-- The cases of one step of the loop outside an element. -/
theorem cleanLoop_cases (c : Nat) (rest : Bytes) :
    c = Separator ∨ (c = Dot ∧ atElemEnd rest = true) ∨
      (c = Dot ∧ ∃ rest2, rest = Dot :: rest2 ∧ atElemEnd rest2 = true) ∨
      (c ≠ Separator ∧ ¬ (c = Dot ∧ atElemEnd rest = true) ∧
        ¬ (c = Dot ∧ ∃ rest2, rest = Dot :: rest2 ∧ atElemEnd rest2 = true)) := by
  tauto

/-- Reading `P`, a separator and then `Q` is reading `P` to its end and going
on with `Q`. -/
theorem cleanLoop_append_sep (rooted : Bool) (Q : Bytes) :
    ∀ (n : Nat) (P : Bytes) (copying : Bool) (out : Bytes) (dotdot : Nat), P.length ≤ n →
      cleanLoop rooted (P ++ Separator :: Q) copying out dotdot
        = cleanLoop rooted Q false (cleanLoop rooted P copying out dotdot).1
            (cleanLoop rooted P copying out dotdot).2 := by
  intro n
  induction n with
  | zero =>
    intro P copying out dotdot hP
    have : P = [] := List.length_eq_zero.mp (Nat.le_zero.mp hP)
    subst this
    simp [cleanLoop_sep, cleanLoop]
  | succ n ih =>
    intro P copying out dotdot hP
    cases P with
    | nil => simp [cleanLoop_sep, cleanLoop]
    | cons c P1 =>
      have h1 : P1.length ≤ n := by simpa using hP
      rw [List.cons_append]
      cases copying with
      | true =>
        by_cases hc : c = Separator
        · subst hc
          rw [cleanLoop_sep, cleanLoop_sep]
          exact ih P1 false out dotdot h1
        · rw [cleanLoop_copy _ _ _ _ _ hc, cleanLoop_copy _ _ _ _ _ hc]
          exact ih P1 true _ dotdot h1
      | false =>
        rcases cleanLoop_cases c P1 with hc | ⟨hc, he⟩ | ⟨hc, rest2, hr, he⟩ | ⟨hc, hd, hdd⟩
        · subst hc
          rw [cleanLoop_sep, cleanLoop_sep]
          exact ih P1 false out dotdot h1
        · subst hc
          rw [cleanLoop_dot _ _ _ _ he,
            cleanLoop_dot _ _ _ _ (by rw [atElemEnd_append_sep]; exact he)]
          exact ih P1 false out dotdot h1
        · subst hc; subst hr
          have h2 : rest2.length ≤ n := by simp at h1; omega
          rw [List.cons_append, cleanLoop_dotdot _ _ _ _ he,
            cleanLoop_dotdot _ _ _ _ (by rw [atElemEnd_append_sep]; exact he)]
          split_ifs
          all_goals exact ih rest2 false _ _ h2
        · rw [cleanLoop_elem _ _ _ _ _ hc hd hdd,
            cleanLoop_elem _ _ _ _ _ hc (by rw [atElemEnd_append_sep]; exact hd) ?_]
          · exact ih P1 true _ _ h1
          · rintro ⟨h1', rest2, hr, he⟩
            cases P1 with
            | nil =>
              simp [Separator, Dot] at hr
            | cons d P2 =>
              simp only [List.cons_append, List.cons.injEq] at hr
              obtain ⟨hd1, hr2⟩ := hr
              cases P2 with
              | nil =>
                exact hdd ⟨h1', [], by rw [hd1], rfl⟩
              | cons e P3 =>
                refine hdd ⟨h1', e :: P3, by rw [hd1], ?_⟩
                rw [← hr2, List.cons_append] at he
                simpa [atElemEnd] using he

theorem backtrackRev_suffix (dotdot : Nat) :
    ∀ l : Bytes, dotdot < l.length →
      backtrackRev dotdot l <:+ l ∧ dotdot ≤ (backtrackRev dotdot l).length := by
  intro l
  induction l with
  | nil => intro h; simp at h
  | cons x r ih =>
    intro h
    by_cases hc : dotdot < r.length ∧ x ≠ Separator
    · obtain ⟨h1, h2⟩ := ih hc.1
      rw [backtrackRev, if_pos hc]
      exact ⟨h1.trans (List.suffix_cons x r), h2⟩
    · rw [backtrackRev, if_neg hc]
      exact ⟨List.suffix_cons x r, by simp at h; omega⟩

theorem backtrack_spec (dotdot : Nat) (out : Bytes) (h : dotdot < out.length) :
    backtrack dotdot out <+: out ∧ dotdot ≤ (backtrack dotdot out).length := by
  obtain ⟨h1, h2⟩ := backtrackRev_suffix dotdot out.reverse (by simpa using h)
  refine ⟨?_, by simpa [backtrack] using h2⟩
  have := List.reverse_prefix.mpr h1
  simpa [backtrack] using this

theorem head?_of_isPrefix {p l : Bytes} (h : p <+: l) (hp : p ≠ []) : p.head? = l.head? := by
  obtain ⟨t, rfl⟩ := h
  cases p with
  | nil => exact absurd rfl hp
  | cons a p => rfl

theorem CleanInv.append {rooted : Bool} {out : Bytes} {dotdot : Nat}
    (h : CleanInv rooted out dotdot) (x : Bytes)
    (hx : out ≠ [] ∨ x.head? ≠ some Separator) : CleanInv rooted (out ++ x) dotdot := by
  obtain ⟨h1, h2, h3⟩ := h
  refine ⟨by simp; omega, fun hr => ?_, fun hr => ?_⟩
  · obtain ⟨a, b⟩ := h2 hr
    refine ⟨a, ?_⟩
    cases out with
    | nil => simp at b
    | cons c out => simpa using b
  · have b := h3 hr
    cases out with
    | nil =>
      rcases hx with hx | hx
      · exact absurd rfl hx
      · simpa using hx
    | cons c out => simpa using b

theorem CleanInv.elem {rooted : Bool} {out : Bytes} {dotdot : Nat}
    (h : CleanInv rooted out dotdot) (c : Nat) (hc : c ≠ Separator) :
    CleanInv rooted (if needSep rooted out then out ++ [Separator] ++ [c] else out ++ [c])
      dotdot := by
  by_cases hn : needSep rooted out = true
  · rw [if_pos hn, List.append_assoc]
    refine h.append _ (Or.inl ?_)
    intro he
    subst he
    obtain ⟨_, h2, _⟩ := h
    cases rooted
    · simp [needSep] at hn
    · simpa using (h2 rfl).2
  · rw [if_neg hn]
    exact h.append _ (Or.inr (by simpa using hc))

/-- The loop of `filepath.Clean` keeps its invariant. -/
theorem cleanLoop_inv (rooted : Bool) :
    ∀ (n : Nat) (P : Bytes) (copying : Bool) (out : Bytes) (dotdot : Nat), P.length ≤ n →
      CleanInv rooted out dotdot →
      CleanInv rooted (cleanLoop rooted P copying out dotdot).1
        (cleanLoop rooted P copying out dotdot).2 := by
  intro n
  induction n with
  | zero =>
    intro P copying out dotdot hP hinv
    have : P = [] := List.length_eq_zero.mp (Nat.le_zero.mp hP)
    subst this
    simpa [cleanLoop] using hinv
  | succ n ih =>
    intro P copying out dotdot hP hinv
    cases P with
    | nil => simpa [cleanLoop] using hinv
    | cons c P1 =>
      have h1 : P1.length ≤ n := by simpa using hP
      cases copying with
      | true =>
        by_cases hc : c = Separator
        · subst hc
          rw [cleanLoop_sep]
          exact ih P1 false out dotdot h1 hinv
        · rw [cleanLoop_copy _ _ _ _ _ hc]
          refine ih P1 true _ dotdot h1 (hinv.append _ ?_)
          by_cases ho : out = []
          · exact Or.inr (by simpa using hc)
          · exact Or.inl ho
      | false =>
        rcases cleanLoop_cases c P1 with hc | ⟨hc, he⟩ | ⟨hc, rest2, hr, he⟩ | ⟨hc, hd, hdd⟩
        · subst hc
          rw [cleanLoop_sep]
          exact ih P1 false out dotdot h1 hinv
        · subst hc
          rw [cleanLoop_dot _ _ _ _ he]
          exact ih P1 false out dotdot h1 hinv
        · subst hc; subst hr
          have h2 : rest2.length ≤ n := by simp at h1; omega
          rw [cleanLoop_dotdot _ _ _ _ he]
          by_cases hb : dotdot < out.length
          · rw [if_pos hb]
            refine ih rest2 false _ _ h2 ?_
            obtain ⟨p1, p2⟩ := backtrack_spec dotdot out hb
            obtain ⟨i1, i2, i3⟩ := hinv
            refine ⟨p2, fun hr => ?_, fun hr => ?_⟩
            · obtain ⟨a, b⟩ := i2 hr
              refine ⟨a, ?_⟩
              rw [head?_of_isPrefix p1 (by intro h0; rw [h0] at p2; simp at p2; omega)]
              exact b
            · by_cases h0 : backtrack dotdot out = []
              · rw [h0]; simp
              · rw [head?_of_isPrefix p1 h0]; exact i3 hr
          · rw [if_neg hb]
            by_cases hroot : rooted = false
            · rw [if_pos hroot]
              refine ih rest2 false _ _ h2 ⟨le_refl _, fun hr => ?_, fun _ => ?_⟩
              · rw [hroot] at hr; exact absurd hr (by decide)
              · obtain ⟨_, _, i3⟩ := hinv
                have b := i3 hroot
                cases out with
                | nil => simp [Dot, Separator]
                | cons a out => simpa using b
            · rw [if_neg hroot]
              exact ih rest2 false _ _ h2 hinv
        · rw [cleanLoop_elem _ _ _ _ _ hc hd hdd]
          exact ih P1 true _ _ h1 (hinv.elem c hc)

theorem splitSep_ne_nil (p : Bytes) : splitSep p ≠ [] := by
  cases p with
  | nil => simp [splitSep]
  | cons c cs =>
    by_cases hc : c = Separator
    · simp [splitSep, hc]
    · simp only [splitSep, hc, if_false]
      split <;> simp

theorem splitSep_sep (cs : Bytes) : splitSep (Separator :: cs) = [] :: splitSep cs := by
  simp [splitSep]

theorem splitSep_cons (c : Nat) (cs s : Bytes) (ss : List Bytes) (hc : c ≠ Separator)
    (h : splitSep cs = s :: ss) : splitSep (c :: cs) = (c :: s) :: ss := by
  simp [splitSep, hc, h]

/-- The first segment of a path is empty exactly at the end of an element. -/
theorem splitSep_head_nil (cs s : Bytes) (ss : List Bytes) (h : splitSep cs = s :: ss) :
    s = [] ↔ atElemEnd cs = true := by
  cases cs with
  | nil =>
    simp only [splitSep, List.cons.injEq] at h
    simp [atElemEnd, ← h.1]
  | cons c cs =>
    by_cases hc : c = Separator
    · subst hc
      rw [splitSep_sep, List.cons.injEq] at h
      simp [atElemEnd, ← h.1]
    · obtain ⟨t, ts, ht⟩ := List.exists_cons_of_ne_nil (splitSep_ne_nil cs)
      rw [splitSep_cons c cs t ts hc ht, List.cons.injEq] at h
      simp [atElemEnd, ← h.1, hc]

theorem Contains_cons_false {c : Nat} {s sub : Bytes} (h : Contains (c :: s) sub = false) :
    Contains s sub = false := by
  simp only [Contains, Bool.or_eq_false_iff] at h
  exact h.2

theorem Contains_dotdot_head {rest2 : Bytes} :
    Contains (Dot :: Dot :: rest2) (ascii "..") = true := by
  simp [Contains, ascii, Dot, List.isPrefixOf]

/-- Without `..` in the name, the loop of `filepath.Clean` appends the path
elements of the name, one after the other. -/
theorem cleanLoop_plain (rooted : Bool) (dotdot : Nat) :
    ∀ (name out : Bytes), Contains name (ascii "..") = false →
      cleanLoop rooted name false out dotdot = (emit rooted out (pathElements name), dotdot) ∧
      ∀ s ss, splitSep name = s :: ss →
        cleanLoop rooted name true out dotdot
          = (emit rooted (out ++ s)
              (ss.filter (fun s => decide (s ≠ [] ∧ s ≠ [Dot]))), dotdot) := by
  intro name
  induction name with
  | nil =>
    intro out _
    refine ⟨by simp [cleanLoop, pathElements, splitSep, emit], ?_⟩
    intro s ss h
    simp only [splitSep, List.cons.injEq] at h
    simp [cleanLoop, ← h.1, ← h.2, emit]
  | cons c rest ih =>
    intro out hno
    have hrest := Contains_cons_false hno
    obtain ⟨t, ts, ht⟩ := List.exists_cons_of_ne_nil (splitSep_ne_nil rest)
    refine ⟨?_, ?_⟩
    · rcases cleanLoop_cases c rest with hc | ⟨hc, he⟩ | ⟨hc, rest2, hr, he⟩ | ⟨hc, hd, hdd⟩
      · subst hc
        rw [cleanLoop_sep, (ih out hrest).1]
        simp [pathElements, splitSep_sep]
      · subst hc
        rw [cleanLoop_dot _ _ _ _ he, (ih out hrest).1]
        have ht0 : t = [] := (splitSep_head_nil rest t ts ht).mpr he
        subst ht0
        simp [pathElements, splitSep_cons Dot rest [] ts (by decide) ht, ht]
      · subst hc; subst hr
        rw [Contains_dotdot_head] at hno
        exact absurd hno (by decide)
      · rw [cleanLoop_elem _ _ _ _ _ hc hd hdd, (ih _ hrest).2 t ts ht]
        have hne : ¬ (c :: t = [Dot]) := by
          intro h
          simp only [List.cons.injEq] at h
          exact hd ⟨h.1, (splitSep_head_nil rest t ts ht).mp h.2⟩
        simp only [pathElements, splitSep_cons c rest t ts hc ht, List.filter_cons]
        simp only [ne_eq, reduceCtorEq, not_false_eq_true, hne, and_self, decide_True, if_true,
          emit]
        by_cases hn : needSep rooted out = true <;> simp [hn]
    · intro s ss h
      by_cases hc : c = Separator
      · subst hc
        rw [splitSep_sep, List.cons.injEq] at h
        rw [cleanLoop_sep, (ih out hrest).1, ← h.1, ← h.2]
        simp [pathElements]
      · rw [splitSep_cons c rest t ts hc ht, List.cons.injEq] at h
        rw [cleanLoop_copy _ _ _ _ _ hc, (ih _ hrest).2 t ts ht, ← h.1, ← h.2]
        simp

theorem needSep_of_two_le (rooted : Bool) (out : Bytes) (h : 2 ≤ out.length) :
    needSep rooted out = true := by
  cases rooted with
  | false =>
    have : out ≠ [] := by
      intro h0; subst h0; simp at h
    simpa [needSep] using this
  | true =>
    have : out.length ≠ 1 := by omega
    simpa [needSep] using this

/-- Once a separator is due, every further element is written after a
separator. -/
theorem emit_of_needSep (rooted : Bool) :
    ∀ (es : List Bytes) (out : Bytes), needSep rooted out = true → (∀ e ∈ es, e ≠ []) →
      emit rooted out es = out ++ (es.map (fun x => Separator :: x)).flatten := by
  intro es
  induction es with
  | nil => intro out _ _; simp [emit]
  | cons e es ih =>
    intro out hn hne
    have he : e ≠ [] := hne e (List.mem_cons_self _ _)
    have hlen : 0 < e.length := List.length_pos.mpr he
    rw [emit, if_pos hn, ih _ (needSep_of_two_le _ _ (by simp; omega))
      (fun x hx => hne x (List.mem_cons_of_mem _ hx))]
    simp

theorem emit_eq_joinUnder (rooted : Bool) (out : Bytes) (dotdot : Nat)
    (hinv : CleanInv rooted out dotdot) (es : List Bytes) (hne : ∀ e ∈ es, e ≠ [])
    (hes : es ≠ []) : emit rooted out es = joinUnder out es := by
  obtain ⟨i1, i2, i3⟩ := hinv
  cases es with
  | nil => exact absurd rfl hes
  | cons e es =>
    have he : e ≠ [] := hne e (List.mem_cons_self _ _)
    have hlen : 0 < e.length := List.length_pos.mpr he
    have hrest : ∀ x ∈ es, x ≠ [] := fun x hx => hne x (List.mem_cons_of_mem _ hx)
    by_cases hn : needSep rooted out = true
    · rw [emit, if_pos hn, emit_of_needSep rooted es _
        (needSep_of_two_le _ _ (by simp; omega)) hrest]
      have h1 : out ≠ [] := by
        intro h0
        subst h0
        cases rooted
        · simp [needSep] at hn
        · simpa using (i2 rfl).2
      have h2 : out ≠ [Separator] := by
        intro h0
        subst h0
        cases rooted
        · exact i3 rfl rfl
        · simp [needSep] at hn
      simp [joinUnder, h1, h2, joinElems]
    · rw [emit, if_neg hn]
      cases rooted with
      | true =>
        obtain ⟨_, b⟩ := i2 rfl
        have hl : out.length = 1 := by simpa [needSep] using hn
        have ho : out = [Separator] := by
          match out, hl, b with
          | [x], _, b => simpa using b
        subst ho
        rw [emit_of_needSep true es _ (needSep_of_two_le _ _ (by simp; omega)) hrest]
        simp [joinUnder, joinElems, Separator]
      | false =>
        have ho : out = [] := by
          have : out.length = 0 := by simpa [needSep] using hn
          exact List.length_eq_zero.mp this
        subst ho
        have hns : needSep false ([] ++ e) = true := by
          simp [needSep]; exact he
        rw [emit_of_needSep false es _ hns hrest]
        simp [joinUnder, joinElems]

theorem not_mem_of_mem_splitSep :
    ∀ (p s : Bytes), s ∈ splitSep p → Separator ∉ s := by
  intro p
  induction p with
  | nil => intro s hs; simp [splitSep] at hs; simp [hs]
  | cons c cs ih =>
    intro s hs
    by_cases hc : c = Separator
    · subst hc
      rw [splitSep_sep, List.mem_cons] at hs
      rcases hs with h | h
      · simp [h]
      · exact ih s h
    · obtain ⟨t, ts, ht⟩ := List.exists_cons_of_ne_nil (splitSep_ne_nil cs)
      rw [splitSep_cons c cs t ts hc ht, List.mem_cons] at hs
      rcases hs with h | h
      · subst h
        have := ih t (by rw [ht]; exact List.mem_cons_self _ _)
        simp only [List.mem_cons, not_or]
        exact ⟨fun h => hc h.symm, this⟩
      · exact ih s (by rw [ht]; exact List.mem_cons_of_mem _ h)

theorem splitSep_head_isPrefix :
    ∀ (p s : Bytes) (ss : List Bytes), splitSep p = s :: ss → s <+: p := by
  intro p
  induction p with
  | nil =>
    intro s ss h
    simp only [splitSep, List.cons.injEq] at h
    rw [← h.1]
  | cons c cs ih =>
    intro s ss h
    by_cases hc : c = Separator
    · subst hc
      rw [splitSep_sep, List.cons.injEq] at h
      rw [← h.1]
      exact List.nil_prefix
    · obtain ⟨t, ts, ht⟩ := List.exists_cons_of_ne_nil (splitSep_ne_nil cs)
      rw [splitSep_cons c cs t ts hc ht, List.cons.injEq] at h
      rw [← h.1]
      exact (List.prefix_cons_inj c).mpr (ih t ts ht)

theorem infix_of_mem_splitSep :
    ∀ (p s : Bytes), s ∈ splitSep p → s <:+: p := by
  intro p
  induction p with
  | nil => intro s hs; simp [splitSep] at hs; simp [hs]
  | cons c cs ih =>
    intro s hs
    by_cases hc : c = Separator
    · subst hc
      rw [splitSep_sep, List.mem_cons] at hs
      rcases hs with h | h
      · subst h; exact List.nil_infix
      · exact (ih s h).trans (List.suffix_cons _ _).isInfix
    · obtain ⟨t, ts, ht⟩ := List.exists_cons_of_ne_nil (splitSep_ne_nil cs)
      rw [splitSep_cons c cs t ts hc ht, List.mem_cons] at hs
      rcases hs with h | h
      · subst h
        exact ((List.prefix_cons_inj c).mpr (splitSep_head_isPrefix cs t ts ht)).isInfix
      · exact (ih s (by rw [ht]; exact List.mem_cons_of_mem _ h)).trans
          (List.suffix_cons _ _).isInfix

/-- A name without path elements consists of dots and separators only. -/
theorem dot_or_sep_of_pathElements_nil :
    ∀ p : Bytes, pathElements p = [] → ∀ c ∈ p, c = Dot ∨ c = Separator := by
  intro p
  induction p with
  | nil => intro _ c hc; simp at hc
  | cons a cs ih =>
    intro h c hc
    by_cases ha : a = Separator
    · subst ha
      have h2 : pathElements cs = [] := by
        simpa [pathElements, splitSep_sep] using h
      rcases List.mem_cons.mp hc with h3 | h3
      · exact Or.inr h3
      · exact ih h2 c h3
    · obtain ⟨t, ts, ht⟩ := List.exists_cons_of_ne_nil (splitSep_ne_nil cs)
      simp only [pathElements, splitSep_cons a cs t ts ha ht, List.filter_cons] at h
      have hk : ¬ (a :: t ≠ [] ∧ a :: t ≠ [Dot]) := by
        intro hk
        simp [hk] at h
      have hk2 : a = Dot ∧ t = [] := by
        simpa using hk
      have h2 : pathElements cs = [] := by
        have hf : (decide (a :: t ≠ [] ∧ a :: t ≠ [Dot])) = false := by
          simpa using hk
        rw [hf] at h
        simp only [Bool.false_eq_true, if_false] at h
        simp only [pathElements, ht, hk2.2, List.filter_cons]
        simpa using h
      rcases List.mem_cons.mp hc with h3 | h3
      · exact Or.inl (h3.trans hk2.1)
      · exact ih h2 c h3

/-- A name of dots and separators that does not begin with a separator and
has no two dots in a row has the base `.`. -/
theorem Base_of_dots (name : Bytes) (hne : name ≠ [])
    (hhead : name.head? ≠ some Separator)
    (hall : ∀ c ∈ name, c = Dot ∨ c = Separator)
    (hno : ¬ ([Dot, Dot] <:+: name)) : Base name = [Dot] := by
  have hdrop : name.reverse.dropWhile (fun c => c == Separator) ≠ [] := by
    intro h
    rw [List.dropWhile_eq_nil_iff] at h
    cases name with
    | nil => exact hne rfl
    | cons a l =>
      have := h a (by simp)
      simp at this
      exact hhead (by simp [this])
  obtain ⟨a, t, hat⟩ := List.exists_cons_of_ne_nil hdrop
  have hsuf : (a :: t) <:+ name.reverse := by
    rw [← hat]; exact List.dropWhile_suffix _
  have ha1 : a ≠ Separator := by
    have := List.head?_dropWhile_not (fun c => c == Separator) name.reverse
    rw [hat] at this
    simpa using this
  have ha : a = Dot := by
    have hm : a ∈ name := by
      have : a ∈ name.reverse := hsuf.mem (List.mem_cons_self _ _)
      simpa using this
    rcases hall a hm with h | h
    · exact h
    · exact absurd h ha1
  have ht : t.takeWhile (fun c => c != Separator) = [] := by
    cases t with
    | nil => rfl
    | cons b t2 =>
      have hb : b ∈ name := by
        have : b ∈ name.reverse := hsuf.mem (by simp)
        simpa using this
      rcases hall b hb with h | h
      · exfalso
        apply hno
        have h1 : [Dot, Dot] <:+: name.reverse := by
          rw [ha, h] at hsuf
          exact (List.prefix_append [Dot, Dot] t2).isInfix.trans hsuf.isInfix
        have := List.reverse_infix.mpr h1
        simpa using this
      · simp [List.takeWhile_cons, h]
  unfold Base
  rw [if_neg hne]
  simp only [List.reverse_reverse, hat, List.takeWhile_cons, ht]
  simp [ha, Dot, Separator]

theorem pathElements_ne_nil (name : Bytes) (h : validateFileName name = none) :
    pathElements name ≠ [] := by
  intro hnil
  unfold validateFileName at h
  split_ifs at h with h1 h2 h3 h4
  apply h4
  left
  have hhead : name.head? ≠ some Separator := by
    intro hh
    apply h2
    cases name with
    | nil => simp at hh
    | cons a l =>
      simp only [List.head?_cons, Option.some.injEq] at hh
      subst hh
      simp [HasPrefix, ascii, Separator]
  have hno : ¬ ([Dot, Dot] <:+: name) := by
    intro hi
    exact h3 ((Contains_iff name (ascii "..")).mpr hi)
  exact Base_of_dots name h1 hhead (dot_or_sep_of_pathElements_nil name hnil) hno

theorem pathElements_spec (name : Bytes) (h : validateFileName name = none) :
    ∀ e ∈ pathElements name,
      e ≠ [] ∧ Separator ∉ e ∧ e ≠ ascii "." ∧ e ≠ ascii ".." := by
  intro e he
  simp only [pathElements, List.mem_filter, decide_eq_true_eq] at he
  obtain ⟨hm, hn, hd⟩ := he
  refine ⟨hn, not_mem_of_mem_splitSep name e hm, hd, ?_⟩
  intro hdd
  have hi := infix_of_mem_splitSep name e hm
  rw [hdd] at hi
  have hc := (Contains_iff name (ascii "..")).mpr hi
  unfold validateFileName at h
  split_ifs at h

theorem validateFileName_none {name : Bytes} (h : validateFileName name = none) :
    name ≠ [] ∧ name.head? ≠ some Separator ∧ Contains name (ascii "..") = false := by
  unfold validateFileName at h
  split_ifs at h with h1 h2 h3 h4
  refine ⟨h1, ?_, by simpa using h3⟩
  intro hh
  apply h2
  cases name with
  | nil => simp at hh
  | cons a l =>
    simp only [List.head?_cons, Option.some.injEq] at hh
    subst hh
    simp [HasPrefix, ascii, Separator]

theorem joinUnder_ne_nil (base : Bytes) (es : List Bytes) (hes : es ≠ [])
    (hne : ∀ e ∈ es, e ≠ []) : joinUnder base es ≠ [] := by
  cases es with
  | nil => exact absurd rfl hes
  | cons e es =>
    have he : e ≠ [] := hne e (List.mem_cons_self _ _)
    unfold joinUnder
    split_ifs <;> simp [joinElems, he]

/-- The buffer that `filepath.Clean` builds for a path read to its end and
followed by a name without `..`: the buffer of the path, then the elements
of the name. -/
theorem cleanLoop_then_name (rooted : Bool) (P name out : Bytes) (dotdot : Nat)
    (hinv : CleanInv rooted out dotdot) (hname : validateFileName name = none) :
    (cleanLoop rooted (P ++ Separator :: name) false out dotdot).1
      = joinUnder (cleanLoop rooted P false out dotdot).1 (pathElements name) := by
  have hno : Contains name (ascii "..") = false := (validateFileName_none hname).2.2
  rw [cleanLoop_append_sep rooted name P.length P false out dotdot (le_refl _),
    (cleanLoop_plain rooted _ name _ hno).1]
  exact emit_eq_joinUnder rooted _ _ (cleanLoop_inv rooted P.length P false out dotdot
    (le_refl _) hinv) _ (fun e he => (pathElements_spec name hname e he).1)
    (pathElements_ne_nil name hname)

/-- The path `filepath.Join(W, name)` of an accepted name: the cleaned
directory followed by the path elements of the name. -/
theorem Join_eq_joinUnder (W name : Bytes) (hname : validateFileName name = none) :
    Join W name = joinUnder (cleanBuf W) (pathElements name) := by
  have hne : joinUnder (cleanBuf W) (pathElements name) ≠ [] :=
    joinUnder_ne_nil _ _ (pathElements_ne_nil name hname)
      (fun e he => (pathElements_spec name hname e he).1)
  have hbuf : (if W ≠ [] then cleanBuf (joinSep W name) else cleanBuf name)
      = joinUnder (cleanBuf W) (pathElements name) := by
    cases W with
    | nil =>
      simp only [ne_eq, not_true_eq_false, if_false]
      cases name with
      | nil => simp [validateFileName] at hname
      | cons c rest =>
        have hc : c ≠ Separator := by
          intro hc
          exact (validateFileName_none hname).2.1 (by simp [hc])
        have hno : Contains (c :: rest) (ascii "..") = false :=
          (validateFileName_none hname).2.2
        simp only [cleanBuf, hc, if_false]
        rw [(cleanLoop_plain false 0 (c :: rest) [] hno).1]
        exact emit_eq_joinUnder false [] 0 ⟨le_refl _, fun h => absurd h (by decide),
          fun _ => by simp⟩ _ (fun e he => (pathElements_spec _ hname e he).1)
          (pathElements_ne_nil _ hname)
    | cons c W1 =>
      simp only [ne_eq, reduceCtorEq, not_false_eq_true, if_true, joinSep, List.cons_append,
        List.append_assoc, List.singleton_append]
      by_cases hc : c = Separator
      · subst hc
        simp only [cleanBuf, if_true]
        exact cleanLoop_then_name true W1 name [Separator] 1
          ⟨le_refl _, fun _ => ⟨le_refl _, rfl⟩, fun h => absurd h (by decide)⟩ hname
      · simp only [cleanBuf, hc, if_false]
        exact cleanLoop_then_name false (c :: W1) name [] 0
          ⟨le_refl _, fun h => absurd h (by decide), fun _ => by simp⟩ hname
  have hname0 : name ≠ [] := by
    intro h0; subst h0; simp [validateFileName] at hname
  unfold Join Clean
  by_cases hW : W = []
  · subst hW
    simp only [ne_eq, not_true_eq_false, if_false, not_false_eq_true, if_true, hname0] at hbuf ⊢
    rw [hbuf, if_neg hne]
  · simp only [ne_eq, hW, not_false_eq_true, if_true] at hbuf ⊢
    have hj : joinSep W name ≠ [] := by simp [joinSep]
    rw [if_neg hj, hbuf, if_neg hne]

theorem map_path_set (l : List FileDesc) (i : Nat) (fd fd1 : FileDesc)
    (h : l[i]? = some fd) (hp : fd1.path = fd.path) :
    (l.set i fd1).map (fun fd => fd.path) = l.map (fun fd => fd.path) := by
  induction l generalizing i with
  | nil => simp
  | cons a l ih =>
    cases i with
    | zero =>
      simp only [List.getElem?_cons_zero, Option.some.injEq] at h
      simp [hp, h]
    | succ i =>
      simp only [List.getElem?_cons_succ] at h
      simp [ih i h]

theorem closeFile_openedPaths (w : World) (h : Nat) :
    openedPaths (closeFile w h) = openedPaths w := by
  unfold closeFile openedPaths
  cases hh : w.handles[h]? with
  | none => rfl
  | some fd => exact map_path_set _ _ fd _ hh rfl

theorem fileWrite_openedPaths (env : Env) (w : World) (h : Nat) (data : Bytes) :
    openedPaths (fileWrite env w h data).2 = openedPaths w := by
  unfold fileWrite openedPaths
  cases hh : w.handles[h]? with
  | none => rfl
  | some fd =>
    by_cases hc : 0 < fd.closes
    · simp [hc]
    · simp only [hc, if_false]
      exact map_path_set _ _ fd _ hh rfl

theorem uploadAppend_openedPaths (env : Env) (wt : WebTTY) (w : World)
    (msg : UploadFileMessage) :
    openedPaths (uploadAppend env wt w msg).2.2 = openedPaths w := by
  by_cases h1 : msg.Chunk ≠ wt.uploadChunks
  · simp [uploadAppend, h1]
  · have h2 : msg.Chunk = wt.uploadChunks := not_not.mp h1
    cases hd : DecodeString msg.Data with
    | none => simp [uploadAppend, h2, hd]
    | some d =>
      cases hf : wt.uploadFile with
      | none =>
        by_cases hl : wt.uploadChunks = msg.TotalChunks - 1 <;>
          simp [uploadAppend, h2, hd, hf, hl]
      | some h =>
        by_cases hw : (fileWrite env w h d).1 = false
        · simp [uploadAppend, h2, hd, hf, hw, fileWrite_openedPaths]
        · by_cases hl : wt.uploadChunks = msg.TotalChunks - 1 <;>
            simp [uploadAppend, h2, hd, hf, hw, hl, fileWrite_openedPaths,
              closeFile_openedPaths]

theorem uploadFirstChunk_openedPaths (env : Env) (wt : WebTTY) (w : World)
    (msg : UploadFileMessage) (W : Bytes) (hwd : env.getWorkingDir w.workDirCalls = some W) :
    openedPaths (uploadFirstChunk env wt w msg).2.2 = openedPaths w ∨
      openedPaths (uploadFirstChunk env wt w msg).2.2 = openedPaths w ++ [Join W msg.Name] := by
  unfold uploadFirstChunk
  by_cases h0 : msg.Chunk = 0
  · cases hf : wt.uploadFile with
    | none =>
      by_cases ho : env.openFails w.openCalls = true
      · left; simp [h0, hwd, osOpenFile, ho, openedPaths]
      · right; simp [h0, hwd, osOpenFile, ho, openedPaths]
    | some h =>
      have e1 := (closeFile_frame w h).2.2.2.1
      have e2 := (closeFile_frame w h).2.2.1
      have e3 := closeFile_openedPaths w h
      unfold openedPaths at e3
      by_cases ho : env.openFails w.openCalls = true
      · left; simp [h0, hwd, osOpenFile, ho, openedPaths, e1, e2, e3]
      · right; simp [h0, hwd, osOpenFile, ho, openedPaths, e1, e2, e3]
  · left; simp [h0]

theorem handleUploadFile_openedPaths (lib : Lib) (env : Env) (wt : WebTTY) (w : World)
    (payload : Bytes) (msg : UploadFileMessage) (W : Bytes)
    (hparse : lib.unmarshalUpload payload = some msg)
    (hwd : env.getWorkingDir w.workDirCalls = some W) :
    openedPaths (handleUploadFile lib env wt w payload).2.2 = openedPaths w ∨
      openedPaths (handleUploadFile lib env wt w payload).2.2
        = openedPaths w ++ [Join W msg.Name] := by
  simp only [handleUploadFile, hparse, handleUploadMessage]
  split
  · left; rfl
  · split_ifs
    · left; rfl
    · left; rfl
    · have h := uploadFirstChunk_openedPaths env wt w msg W hwd
      rcases hr : uploadFirstChunk env wt w msg with ⟨e, wt1, w1⟩
      rw [hr] at h
      cases e with
      | some e => simpa using h
      | none => simpa [uploadAppend_openedPaths] using h

/-- C3, counterexample. The Slave reports the working directory `/a/../b` and
the client sends the accepted name `x`: the path opened is `/b/x`, which is
not the reported directory followed by anything. -/
theorem upload_path_not_under_reported_dir :
    validateFileName (ascii "x") = none ∧
      Join (ascii "/a/../b") (ascii "x") = ascii "/b/x" ∧
      ¬ (ascii "/a/../b" <+: Join (ascii "/a/../b") (ascii "x")) := by
  decide

/-- C3, amended. For every working directory W reported by the Slave and
every filename that `validateFileName` accepts, the path that
`handleUploadFile` opens for writing, `filepath.Join(W, name)`, lies lexically
under the cleaned directory `filepath.Clean(W)`: it is the buffer that Clean
builds for W (Clean(W) itself, or the empty buffer when Clean(W) is `.`)
followed by one or more path elements, each non-empty, without a separator
and neither `.` nor `..`, joined by separators (under `/` without a second
separator, under the empty buffer the elements alone). A call of
`handleUploadFile` opens no file or exactly one, at that path. -/
theorem upload_path_under_cleaned_dir (lib : Lib) (env : Env) (wt : WebTTY) (w : World)
    (payload : Bytes) (msg : UploadFileMessage) (W : Bytes)
    (hparse : lib.unmarshalUpload payload = some msg)
    (hname : validateFileName msg.Name = none)
    (hwd : env.getWorkingDir w.workDirCalls = some W) :
    pathElements msg.Name ≠ [] ∧
      (∀ e ∈ pathElements msg.Name,
        e ≠ [] ∧ Separator ∉ e ∧ e ≠ ascii "." ∧ e ≠ ascii "..") ∧
      Join W msg.Name = joinUnder (cleanBuf W) (pathElements msg.Name) ∧
      Clean W = (if cleanBuf W = [] then ascii "." else cleanBuf W) ∧
      (openedPaths (handleUploadFile lib env wt w payload).2.2 = openedPaths w ∨
        openedPaths (handleUploadFile lib env wt w payload).2.2
          = openedPaths w ++ [joinUnder (cleanBuf W) (pathElements msg.Name)]) := by
  refine ⟨pathElements_ne_nil _ hname, pathElements_spec _ hname,
    Join_eq_joinUnder W _ hname, ?_, ?_⟩
  · unfold Clean
    by_cases hW : W = []
    · subst hW; simp [cleanBuf, ascii, Dot]
    · simp [hW, ascii, Dot]
  · rw [← Join_eq_joinUnder W _ hname]
    exact handleUploadFile_openedPaths lib env wt w payload msg W hparse hwd

theorem upload_path_under_cleaned_dir_witness :
    Join (ascii "/srv/../tmp/") (ascii "./a//b.txt") = ascii "/tmp/a/b.txt" ∧
      cleanBuf (ascii "/srv/../tmp/") = ascii "/tmp" ∧
      pathElements (ascii "./a//b.txt") = [ascii "a", ascii "b.txt"] := by
  have h := upload_path_under_cleaned_dir
    (tableLib [(ascii "x", chunkMessage "./a//b.txt" 0 1 "QQ==")] [])
    (quietEnv (ascii "/srv/../tmp/")) New emptyWorld (ascii "x")
    (chunkMessage "./a//b.txt" 0 1 "QQ==") (ascii "/srv/../tmp/") (by decide) (by decide) rfl
  have e1 : cleanBuf (ascii "/srv/../tmp/") = ascii "/tmp" := by decide
  have e2 : pathElements (ascii "./a//b.txt") = [ascii "a", ascii "b.txt"] := by decide
  refine ⟨?_, e1, e2⟩
  have e3 : (chunkMessage "./a//b.txt" 0 1 "QQ==").Name = ascii "./a//b.txt" := rfl
  rw [← e3, h.2.2.1, e3, e1, e2]
  decide

/-! ### Shutdown and unknown messages -/

/-- C16. `Close` is idempotent: for every session state, after `Close` the
upload file handle is nil and, if one was held, `Close` has been called on it
(its close count is one higher); a second `Close` changes nothing and closes
nothing again; `Close` makes no call to the Master or the Slave, leaves the
files as they are, and changes no field of the session other than the upload
file handle. -/
theorem close_is_idempotent (wt : WebTTY) (w : World) :
    (Close wt w).1 = { wt with uploadFile := none } ∧
      (∀ h, wt.uploadFile = some h → (Close wt w).2 = closeFile w h) ∧
      (wt.uploadFile = none → (Close wt w).2 = w) ∧
      Close (Close wt w).1 (Close wt w).2 = Close wt w ∧
      (Close wt w).2.masterWrites = w.masterWrites ∧
      (Close wt w).2.slaveWrites = w.slaveWrites ∧
      (Close wt w).2.resizes = w.resizes ∧
      (Close wt w).2.files = w.files ∧
      (∀ h fd, wt.uploadFile = some h → w.handles[h]? = some fd →
        (Close wt w).2.handles[h]? = some { fd with closes := fd.closes + 1 }) := by
  cases hf : wt.uploadFile with
  | none =>
    have hwt : { wt with uploadFile := none } = wt := by
      cases wt; simp_all
    simp [Close, cleanupUploadFile, hf, hwt]
  | some h =>
    obtain ⟨f1, f2, f3, f4, f5, f6, f7, f8, f9⟩ := closeFile_frame w h
    refine ⟨by simp [Close, cleanupUploadFile, hf], ?_, ?_, by simp [Close, cleanupUploadFile, hf],
      by simp [Close, cleanupUploadFile, hf, f6], by simp [Close, cleanupUploadFile, hf, f7],
      by simp [Close, cleanupUploadFile, hf, f8], by simp [Close, cleanupUploadFile, hf, f1], ?_⟩
    · intro h1 e
      cases e
      simp [Close, cleanupUploadFile, hf]
    · intro e
      exact Option.noConfusion e
    · intro h1 fd e hfd
      cases e
      simpa [Close, cleanupUploadFile, hf] using closeFile_getElem w h fd hfd

/-- C17. For every non-empty Master message whose first byte is none of the
tags Input, Ping, SetEncoding, ResizeTerminal, UploadFile, UploadCancel,
`handleMasterReadEvent` returns the unknown-message-type error and leaves the
session and the world as they were (nothing is written to the Slave or to the
Master); a zero-length message is refused with an error too. -/
theorem unknown_message_type_rejected (mt : MessageTypes) (lib : Lib) (env : Env)
    (wt : WebTTY) (w : World) (tag : Nat) (payload : Bytes)
    (h : tag ∉ [mt.Input, mt.Ping, mt.SetEncoding, mt.ResizeTerminal, mt.UploadFile,
      mt.UploadCancel]) :
    handleMasterReadEvent mt lib env wt w (tag :: payload)
        = (some (MasterEventError.unknownType tag), wt, w) ∧
      handleMasterReadEvent mt lib env wt w [] = (some MasterEventError.zeroLength, wt, w) := by
  simp only [List.mem_cons, List.mem_singleton, not_or, List.not_mem_nil, or_false] at h
  obtain ⟨h1, h2, h3, h4, h5, h6⟩ := h
  simp [handleMasterReadEvent, h1, h2, h3, h4, h5, h6]

theorem close_is_idempotent_witness :
    (Close abcAfterTwo.2.1 abcAfterTwo.2.2).1.uploadFile = none ∧
      Close (Close abcAfterTwo.2.1 abcAfterTwo.2.2).1 (Close abcAfterTwo.2.1 abcAfterTwo.2.2).2
        = Close abcAfterTwo.2.1 abcAfterTwo.2.2 :=
  ⟨congrArg WebTTY.uploadFile (close_is_idempotent abcAfterTwo.2.1 abcAfterTwo.2.2).1,
    (close_is_idempotent abcAfterTwo.2.1 abcAfterTwo.2.2).2.2.2.1⟩

theorem unknown_message_type_rejected_witness :
    handleMasterReadEvent sampleTypes demoLib (quietEnv []) New emptyWorld (ascii "0x")
      = (some (MasterEventError.unknownType 48), New, emptyWorld) :=
  (unknown_message_type_rejected sampleTypes demoLib (quietEnv []) New emptyWorld 48
    (ascii "x") (by decide)).1

/-! ### The end of a transfer and the start of the next -/

/-- C11, the code at the failing input. A new session accepts chunk 0 of 1 of
`a.txt`, the last chunk of the transfer: the handle is nil, the directory is
empty and the file holds `A`, but the filename is still `a.txt` and the chunk
counter is 1, where a new session (and the state that UploadCancel leaves)
has the empty filename and the counter 0. -/
theorem last_chunk_keeps_name_and_counter :
    oneChunkDone.1 = none ∧ oneChunkDone.2.1.uploadFile = none ∧
      oneChunkDone.2.1.uploadWorkDir = [] ∧
      fsLookup (ascii "/tmp/a.txt") oneChunkDone.2.2.files = some (ascii "A") ∧
      oneChunkDone.2.1.uploadFileName = ascii "a.txt" ∧
      oneChunkDone.2.1.uploadChunks = 1 ∧
      New.uploadFileName = [] ∧ New.uploadChunks = 0 := by
  decide

/-- C20, the code at the failing input. After the one-chunk transfer of
`a.txt` is complete no file handle is held; the upload message with chunk
index 1 of 2 is then accepted by `handleUploadFile` without error, although
no file is open: nothing is written, the world is exactly as before and the
file still holds `A`. -/
theorem chunk_acknowledged_without_file :
    oneChunkDone.2.1.uploadFile = none ∧
      (chunkMessage "a.txt" 1 2 "Qg==").Chunk ≠ 0 ∧
      (handleUploadFile staleLib (quietEnv (ascii "/tmp")) oneChunkDone.2.1 oneChunkDone.2.2
        (ascii "chunk 1/2 a.txt Qg==")).1 = none ∧
      (handleUploadFile staleLib (quietEnv (ascii "/tmp")) oneChunkDone.2.1 oneChunkDone.2.2
        (ascii "chunk 1/2 a.txt Qg==")).2.2 = oneChunkDone.2.2 ∧
      fsLookup (ascii "/tmp/a.txt") oneChunkDone.2.2.files = some (ascii "A") := by
  decide

/-- C12, counterexample. A transfer of `a.txt` is in progress in `/tmp` (the
file holds `A`). A valid chunk 0 for the different filename `./a.txt` has the
same destination path, so the contents of the file of the first transfer
change to `B`. And when `os.OpenFile` fails for the new transfer, the counter
is 0 afterwards, not 1. -/
theorem first_chunk_restart_counterexample :
    ((abcAfterOne (quietEnv (ascii "/tmp"))).2.1.uploadFileName = ascii "a.txt" ∧
      fsLookup (ascii "/tmp/a.txt") (abcAfterOne (quietEnv (ascii "/tmp"))).2.2.files
        = some (ascii "A") ∧
      (chunkMessage "./a.txt" 0 2 "Qg==").Name ≠ ascii "a.txt" ∧
      validateFileName (chunkMessage "./a.txt" 0 2 "Qg==").Name = none ∧
      fsLookup (ascii "/tmp/a.txt")
        (handleUploadFile staleLib (quietEnv (ascii "/tmp"))
          (abcAfterOne (quietEnv (ascii "/tmp"))).2.1 (abcAfterOne (quietEnv (ascii "/tmp"))).2.2
          (ascii "chunk 0/2 ./a.txt Qg==")).2.2.files = some (ascii "B")) ∧
    ((handleUploadFile staleLib (openFailsAt (ascii "/tmp") 1)
          (abcAfterOne (openFailsAt (ascii "/tmp") 1)).2.1
          (abcAfterOne (openFailsAt (ascii "/tmp") 1)).2.2
          (ascii "chunk 0/2 ./a.txt Qg==")).2.1.uploadChunks = 0) := by
  decide

theorem fsRemove_cons (q r c : Bytes) (fs : List (Bytes × Bytes)) :
    fsRemove q ((r, c) :: fs) = if r = q then fsRemove q fs else (r, c) :: fsRemove q fs := by
  by_cases hr : r = q <;> simp [fsRemove, List.filter_cons, hr]

theorem fsLookup_fsRemove_ne (p q : Bytes) (fs : List (Bytes × Bytes)) (h : p ≠ q) :
    fsLookup p (fsRemove q fs) = fsLookup p fs := by
  induction fs with
  | nil => rfl
  | cons e fs ih =>
    obtain ⟨r, c⟩ := e
    rw [fsRemove_cons]
    by_cases hr : r = q
    · have hrp : ¬ r = p := by rw [hr]; exact fun e => h e.symm
      rw [if_pos hr, ih]
      simp [fsLookup, hrp]
    · rw [if_neg hr]
      by_cases hp : r = p
      · simp [fsLookup, hp]
      · simp [fsLookup, hp, ih]

theorem fsLookup_fsWrite_ne (p q c : Bytes) (fs : List (Bytes × Bytes)) (h : p ≠ q) :
    fsLookup p (fsWrite q c fs) = fsLookup p fs := by
  have hq : ¬ q = p := fun e => h e.symm
  simp [fsWrite, fsLookup, hq, fsLookup_fsRemove_ne p q fs h]


theorem getElem?_concat_self {α : Type} (l : List α) (a : α) :
    (l ++ [a])[l.length]? = some a := by
  simp

theorem set_concat_length {α : Type} (l : List α) (a b : α) :
    (l ++ [a]).set l.length b = l ++ [b] := by
  induction l with
  | nil => rfl
  | cons x l ih => simp [ih]

/-- The write of the first chunk: the new handle is the newest, the file is
empty, and the data is written at offset 0. -/
theorem fileWrite_new (env : Env) (w : World) (path data : Bytes) (hs : List FileDesc)
    (fs : List (Bytes × Bytes))
    (hw : env.fileWriteFails w.fileWriteCalls = none)
    (hh : w.handles = hs ++ [{ path := path, offset := 0, closes := 0 }])
    (hf : w.files = fsWrite path [] fs) :
    fileWrite env w hs.length data
      = (true, { w with
          fileWriteCalls := w.fileWriteCalls + 1
          files := fsWrite path data (fsWrite path [] fs)
          handles := hs ++ [{ path := path, offset := data.length, closes := 0 }] }) := by
  unfold fileWrite
  simp [hh, hw, hf, fsLookup_fsWrite_self, writeAt, set_concat_length]


theorem Close_frame (wt : WebTTY) (w : World) :
    (Close wt w).2.files = w.files ∧ (Close wt w).2.removeCalls = w.removeCalls ∧
      (Close wt w).2.openCalls = w.openCalls ∧ (Close wt w).2.workDirCalls = w.workDirCalls ∧
      (Close wt w).2.fileWriteCalls = w.fileWriteCalls ∧
      (Close wt w).2.masterWrites = w.masterWrites ∧
      (Close wt w).2.slaveWrites = w.slaveWrites ∧ (Close wt w).2.resizes = w.resizes ∧
      (Close wt w).2.handles.length = w.handles.length := by
  unfold Close cleanupUploadFile
  cases wt.uploadFile with
  | none => simp
  | some h => exact closeFile_frame w h

/-- The first-chunk block when the Slave reports `W` and the file opens. -/
theorem uploadFirstChunk_result (env : Env) (wt : WebTTY) (w : World)
    (msg : UploadFileMessage) (W : Bytes) (h0 : msg.Chunk = 0)
    (hwd : env.getWorkingDir w.workDirCalls = some W)
    (hopen : env.openFails w.openCalls = false) :
    uploadFirstChunk env wt w msg
      = (none,
          { wt with uploadFile := some w.handles.length, uploadFileName := msg.Name,
                    uploadChunks := 0, uploadWorkDir := W },
          { (Close wt w).2 with
            workDirCalls := w.workDirCalls + 1
            openCalls := w.openCalls + 1
            files := fsWrite (Join W msg.Name) [] w.files
            handles := (Close wt w).2.handles
              ++ [{ path := Join W msg.Name, offset := 0, closes := 0 }] }) := by
  obtain ⟨c1, c2, c3, c4, c5, c6, c7, c8, c9⟩ := Close_frame wt w
  unfold Close cleanupUploadFile at *
  cases hf : wt.uploadFile with
  | none =>
    simp [uploadFirstChunk, h0, hwd, hopen, osOpenFile, hf]
  | some h =>
    rw [hf] at c1 c2 c3 c4 c5 c6 c7 c8 c9
    simp only at c1 c2 c3 c4 c5 c6 c7 c8 c9
    simp [uploadFirstChunk, h0, hwd, hopen, osOpenFile, hf, c1, c3, c4, c9]

/-- The append of the first chunk to the file just opened. -/
theorem uploadAppend_new (env : Env) (wt : WebTTY) (w : World) (msg : UploadFileMessage)
    (path d : Bytes) (hs : List FileDesc) (fs : List (Bytes × Bytes))
    (hf : wt.uploadFile = some hs.length) (hc : wt.uploadChunks = msg.Chunk)
    (hh : w.handles = hs ++ [{ path := path, offset := 0, closes := 0 }])
    (hfs : w.files = fsWrite path [] fs)
    (hwrite : env.fileWriteFails w.fileWriteCalls = none)
    (hd : DecodeString msg.Data = some d) :
    uploadAppend env wt w msg
      = (none,
          { wt with
            uploadChunks := wt.uploadChunks + 1
            uploadFile := if msg.Chunk = msg.TotalChunks - 1 then none else some hs.length
            uploadWorkDir := if msg.Chunk = msg.TotalChunks - 1 then [] else wt.uploadWorkDir },
          { w with
            fileWriteCalls := w.fileWriteCalls + 1
            files := fsWrite path d (fsWrite path [] fs)
            handles := hs ++ [{ path := path, offset := d.length,
                                closes := if msg.Chunk = msg.TotalChunks - 1 then 1 else 0 }] })
    := by
  have hw := fileWrite_new env w path d hs fs hwrite hh hfs
  have hne : ¬ (msg.Chunk ≠ wt.uploadChunks) := by rw [hc]; simp
  unfold uploadAppend
  rw [if_neg hne]
  simp only [hd, hf, hw]
  by_cases hl : msg.Chunk = msg.TotalChunks - 1
  · simp [hl, closeFile, set_concat_length]
  · simp [hl, hf]

theorem handleUploadMessage_first_result (env : Env) (wt : WebTTY) (w : World)
    (msg : UploadFileMessage) (W d : Bytes)
    (hname : validateFileName msg.Name = none) (h0 : msg.Chunk = 0)
    (hlt : 0 < msg.TotalChunks)
    (hwd : env.getWorkingDir w.workDirCalls = some W)
    (hopen : env.openFails w.openCalls = false)
    (hwrite : env.fileWriteFails w.fileWriteCalls = none)
    (hd : DecodeString msg.Data = some d) :
    handleUploadMessage env wt w msg
      = (none,
          { wt with
            uploadFile := if msg.TotalChunks = 1 then none else some w.handles.length
            uploadFileName := msg.Name
            uploadChunks := 1
            uploadWorkDir := if msg.TotalChunks = 1 then [] else W },
          { (Close wt w).2 with
            workDirCalls := w.workDirCalls + 1
            openCalls := w.openCalls + 1
            fileWriteCalls := w.fileWriteCalls + 1
            files := fsWrite (Join W msg.Name) d (fsWrite (Join W msg.Name) [] w.files)
            handles := (Close wt w).2.handles
              ++ [{ path := Join W msg.Name, offset := d.length,
                    closes := if msg.TotalChunks = 1 then 1 else 0 }] }) := by
  obtain ⟨c1, c2, c3, c4, c5, c6, c7, c8, c9⟩ := Close_frame wt w
  rw [handleUploadMessage_valid env wt _ w _ msg hname (by omega) (by omega)
    (uploadFirstChunk_result env wt w msg W h0 hwd hopen)]
  rw [uploadAppend_new env _ _ msg (Join W msg.Name) d (Close wt w).2.handles w.files
    (by simp [c9]) (by simp [h0]) rfl rfl (by simpa [c5] using hwrite) hd]
  have e : (msg.Chunk = msg.TotalChunks - 1) ↔ msg.TotalChunks = 1 := by omega
  simp [e, c5, c9]

/-! ### Cancel, and a first chunk during a transfer -/

/-- The UploadCancel message on a session that holds a file handle: the
handle is closed, `os.Remove` is called when the recorded filename and
directory are both non-empty, and the four upload fields are reset. -/
theorem upload_cancel_result (mt : MessageTypes) (lib : Lib) (env : Env) (wt : WebTTY)
    (w : World) (payload : Bytes) (h : Nat) (hf : wt.uploadFile = some h) :
    handleMasterReadEvent mt lib env wt w (mt.UploadCancel :: payload)
      = (none,
          { wt with uploadFile := none, uploadFileName := [], uploadChunks := 0,
                    uploadWorkDir := [] },
          if wt.uploadFileName ≠ [] ∧ wt.uploadWorkDir ≠ [] then
            osRemove env (closeFile w h) (Join wt.uploadWorkDir wt.uploadFileName)
          else closeFile w h) := by
  obtain ⟨n1, n2, n3, n4, n5, n6, n7, n8, n9, n10, n11, n12, n13, n14, n15⟩ := mt.ne
  simp [handleMasterReadEvent, n5.symm, n9.symm, n12.symm, n14.symm, n15.symm, hf]

theorem osRemove_frame (env : Env) (w : World) (path : Bytes) :
    (osRemove env w path).handles = w.handles ∧
      (osRemove env w path).workDirCalls = w.workDirCalls ∧
      (osRemove env w path).openCalls = w.openCalls ∧
      (osRemove env w path).fileWriteCalls = w.fileWriteCalls ∧
      (osRemove env w path).files
        = (if env.removeFails w.removeCalls = true then w.files else fsRemove path w.files) := by
  unfold osRemove
  by_cases hr : env.removeFails w.removeCalls = true <;> simp [hr]

/-- What UploadCancel leaves of the world when a handle is held: the handles
are those after the close, the counters of the other file calls are as
before, and the files are as before except for the removed one. -/
theorem upload_cancel_world (mt : MessageTypes) (lib : Lib) (env : Env) (wt : WebTTY)
    (w : World) (payload : Bytes) (h : Nat) (hf : wt.uploadFile = some h) :
    (handleMasterReadEvent mt lib env wt w (mt.UploadCancel :: payload)).2.2.handles
        = (closeFile w h).handles ∧
      (handleMasterReadEvent mt lib env wt w (mt.UploadCancel :: payload)).2.2.workDirCalls
        = w.workDirCalls ∧
      (handleMasterReadEvent mt lib env wt w (mt.UploadCancel :: payload)).2.2.openCalls
        = w.openCalls ∧
      (handleMasterReadEvent mt lib env wt w (mt.UploadCancel :: payload)).2.2.fileWriteCalls
        = w.fileWriteCalls ∧
      (handleMasterReadEvent mt lib env wt w (mt.UploadCancel :: payload)).2.2.files
        = (if wt.uploadFileName ≠ [] ∧ wt.uploadWorkDir ≠ [] ∧
              env.removeFails w.removeCalls = false then
            fsRemove (Join wt.uploadWorkDir wt.uploadFileName) w.files
          else w.files) := by
  rw [upload_cancel_result mt lib env wt w payload h hf]
  obtain ⟨c1, c2, c3, c4, c5, c6, c7, c8, c9⟩ := closeFile_frame w h
  by_cases hg : wt.uploadFileName ≠ [] ∧ wt.uploadWorkDir ≠ []
  · obtain ⟨r1, r2, r3, r4, r5⟩ :=
      osRemove_frame env (closeFile w h) (Join wt.uploadWorkDir wt.uploadFileName)
    rw [if_pos hg, r1, r2, r3, r4, r5, c1, c2, c3, c4, c5]
    refine ⟨rfl, rfl, rfl, rfl, ?_⟩
    by_cases hr : env.removeFails w.removeCalls = true
    · simp [hr]
    · simp [hr, hg.1, hg.2]
  · rw [if_neg hg]
    refine ⟨rfl, c4, c3, c5, ?_⟩
    rw [c1]
    have hg2 : ¬ (wt.uploadFileName ≠ [] ∧ wt.uploadWorkDir ≠ [] ∧
        env.removeFails w.removeCalls = false) := fun t => hg ⟨t.1, t.2.1⟩
    rw [if_neg hg2]

/-- C10, amended. When an UploadCancel message arrives while a transfer is in
progress (the session holds a file handle): the handler returns no error, the
file handle has been closed and the upload state is the initial one (nil
handle, empty filename, counter 0, empty directory), whatever the recorded
directory is and whether or not the removal succeeds; the partial file at
`Join workDir name` no longer exists provided the recorded filename and
directory are not empty and `os.Remove` succeeds, and otherwise the files are
as they were. A following valid chunk 0 for a filename, with write
permission, a Slave that reports its working directory and file operations
that succeed, returns no error and starts a new transfer: the new name is
recorded, the counter is 1, the destination file holds exactly the decoded
data, and unless it was the only chunk the session holds a new open handle at
the end of that file. When no transfer is in progress, UploadCancel returns
no error and changes nothing. -/
theorem upload_cancel_then_restart (mt : MessageTypes) (lib : Lib) (env : Env) (wt : WebTTY)
    (w : World) (payload : Bytes) (h : Nat) (hf : wt.uploadFile = some h) :
    (∃ wtc wc,
      handleMasterReadEvent mt lib env wt w (mt.UploadCancel :: payload) = (none, wtc, wc) ∧
      UploadIdle wtc ∧
      (∀ fd, w.handles[h]? = some fd →
        wc.handles[h]? = some { fd with closes := fd.closes + 1 }) ∧
      (wt.uploadFileName ≠ [] → wt.uploadWorkDir ≠ [] →
        env.removeFails w.removeCalls = false →
        fsLookup (Join wt.uploadWorkDir wt.uploadFileName) wc.files = none) ∧
      (wt.uploadFileName = [] ∨ wt.uploadWorkDir = [] ∨
          env.removeFails w.removeCalls = true → wc.files = w.files) ∧
      ∀ (p : Bytes) (msg : UploadFileMessage) (workDir d : Bytes),
        wt.permitWrite = true → lib.unmarshalUpload p = some msg →
        validateFileName msg.Name = none → msg.Chunk = 0 → 0 < msg.TotalChunks →
        DecodeString msg.Data = some d →
        env.getWorkingDir w.workDirCalls = some workDir →
        env.openFails w.openCalls = false →
        env.fileWriteFails w.fileWriteCalls = none →
        (handleMasterReadEvent mt lib env wtc wc (mt.UploadFile :: p)).1 = none ∧
        (handleMasterReadEvent mt lib env wtc wc (mt.UploadFile :: p)).2.1.uploadFileName
          = msg.Name ∧
        (handleMasterReadEvent mt lib env wtc wc (mt.UploadFile :: p)).2.1.uploadChunks = 1 ∧
        fsLookup (Join workDir msg.Name)
          (handleMasterReadEvent mt lib env wtc wc (mt.UploadFile :: p)).2.2.files = some d ∧
        (1 < msg.TotalChunks → ∃ h1,
          (handleMasterReadEvent mt lib env wtc wc (mt.UploadFile :: p)).2.1.uploadFile
            = some h1 ∧
          (handleMasterReadEvent mt lib env wtc wc (mt.UploadFile :: p)).2.2.handles[h1]?
            = some { path := Join workDir msg.Name, offset := d.length, closes := 0 })) ∧
    (∀ (wt0 : WebTTY) (w0 : World), wt0.uploadFile = none →
      handleMasterReadEvent mt lib env wt0 w0 (mt.UploadCancel :: payload) = (none, wt0, w0)) := by
  refine ⟨?_, fun wt0 w0 hnone => (upload_cancel mt lib env wt0 w0 payload).2 hnone⟩
  obtain ⟨k1, k2, k3, k4, k5⟩ := upload_cancel_world mt lib env wt w payload h hf
  have hres := upload_cancel_result mt lib env wt w payload h hf
  rcases hc : handleMasterReadEvent mt lib env wt w (mt.UploadCancel :: payload) with
    ⟨e, wtc, wc⟩
  rw [hc] at k1 k2 k3 k4 k5 hres
  simp only at k1 k2 k3 k4 k5
  have he : e = none := congrArg (fun r => r.1) hres
  have hwtc : wtc
      = { wt with uploadFile := none, uploadFileName := [], uploadChunks := 0,
                  uploadWorkDir := [] } :=
    congrArg (fun r => r.2.1) hres
  subst he
  refine ⟨wtc, wc, rfl, ?_, ?_, ?_, ?_, ?_⟩
  · rw [hwtc]; exact ⟨rfl, rfl, rfl, rfl⟩
  · intro fd hfd
    rw [k1]
    exact closeFile_getElem w h fd hfd
  · intro hn hdir hrm
    rw [k5, if_pos ⟨hn, hdir, hrm⟩]
    exact fsLookup_fsRemove_self _ _
  · intro hor
    rw [k5, if_neg]
    rintro ⟨hn, hdir, hrm⟩
    rcases hor with hor | hor | hor
    · exact hn hor
    · exact hdir hor
    · rw [hor] at hrm; exact Bool.noConfusion hrm
  · intro p msg workDir d hp hparse hname h0 hlt hd hwd hopen hwrite
    have hpc : wtc.permitWrite = true := by rw [hwtc]; exact hp
    obtain ⟨u1, u2⟩ := handleMasterReadEvent_upload mt lib env wtc wc p msg hpc hparse
    have hfirst := handleUploadMessage_first_result env wtc wc msg workDir d hname h0 hlt
      (by rw [k2]; exact hwd) (by rw [k3]; exact hopen) (by rw [k4]; exact hwrite) hd
    have hidle : wtc.uploadFile = none := by rw [hwtc]
    have hclose : (Close wtc wc).2 = wc := by simp [Close, cleanupUploadFile, hidle]
    rw [u1, u2, hfirst, hclose]
    refine ⟨rfl, rfl, rfl, fsLookup_fsWrite_self _ _ _, ?_⟩
    intro hgt
    have hN : ¬ msg.TotalChunks = 1 := by omega
    refine ⟨wc.handles.length, by simp [hN], ?_⟩
    simp [hN]

theorem upload_cancel_then_restart_witness :
    ∃ wtc wc,
      handleMasterReadEvent sampleTypes demoLib (quietEnv (ascii "/tmp"))
          (abcAfterOne (quietEnv (ascii "/tmp"))).2.1 (abcAfterOne (quietEnv (ascii "/tmp"))).2.2
          [sampleTypes.UploadCancel] = (none, wtc, wc) ∧
        UploadIdle wtc ∧
        fsLookup (Join (ascii "/tmp") (ascii "a.txt")) wc.files = none ∧
        (handleMasterReadEvent sampleTypes demoLib (quietEnv (ascii "/tmp")) wtc wc
          (sampleTypes.UploadFile :: ascii "chunk 0/2 b.txt Qg==")).1 = none := by
  obtain ⟨⟨wtc, wc, h1, h2, _, h4, _, h6⟩, _⟩ :=
    upload_cancel_then_restart sampleTypes demoLib (quietEnv (ascii "/tmp"))
      (abcAfterOne (quietEnv (ascii "/tmp"))).2.1 (abcAfterOne (quietEnv (ascii "/tmp"))).2.2
      [] 0 (by decide)
  exact ⟨wtc, wc, h1, h2, h4 (by decide) (by decide) rfl,
    (h6 (ascii "chunk 0/2 b.txt Qg==") (chunkMessage "b.txt" 0 2 "Qg==") (ascii "/tmp")
      (ascii "B") (by decide) (by decide) (by decide) (by decide) (by decide) (by decide)
      rfl rfl rfl).1⟩

theorem closeFile_getElem_other (w : World) (h i : Nat) (hi : i ≠ h) :
    (closeFile w h).handles[i]? = w.handles[i]? := by
  unfold closeFile
  cases hh : w.handles[h]? with
  | none => rfl
  | some fd => simp [List.getElem?_set, Ne.symm hi]

/-- C12, amended. When a valid first chunk (chunk == 0, decodable data)
arrives while a transfer of file A is in progress, and the Slave reports its
working directory and the file operations succeed: the handle of A is closed
(once, and nothing is written through it); no file is deleted (`os.Remove` is
not called and every file that existed still exists); the handler makes one
call of `os.OpenFile`, at the new destination path `Join workDir name`, and
one call of `File.Write`, through the handle just opened, and leaves every
other handle as it was; and the new transfer restarts from scratch: the
destination file holds exactly the decoded payload of this chunk, the new
name is recorded and the counter is 1. -/
theorem first_chunk_abandons_and_restarts (lib : Lib) (env : Env) (wt : WebTTY) (w : World)
    (payload : Bytes) (msg : UploadFileMessage) (W d : Bytes) (hA : Nat) (fdA : FileDesc)
    (hparse : lib.unmarshalUpload payload = some msg)
    (hname : validateFileName msg.Name = none) (h0 : msg.Chunk = 0)
    (hlt : 0 < msg.TotalChunks) (hd : DecodeString msg.Data = some d)
    (hwd : env.getWorkingDir w.workDirCalls = some W)
    (hopen : env.openFails w.openCalls = false)
    (hwrite : env.fileWriteFails w.fileWriteCalls = none)
    (hf : wt.uploadFile = some hA) (hfd : w.handles[hA]? = some fdA) :
    (handleUploadFile lib env wt w payload).1 = none ∧
      (handleUploadFile lib env wt w payload).2.2.handles[hA]?
        = some { fdA with closes := fdA.closes + 1 } ∧
      (handleUploadFile lib env wt w payload).2.2.removeCalls = w.removeCalls ∧
      (∀ p, (fsLookup p w.files).isSome = true →
        (fsLookup p (handleUploadFile lib env wt w payload).2.2.files).isSome = true) ∧
      (handleUploadFile lib env wt w payload).2.2.openCalls = w.openCalls + 1 ∧
      (handleUploadFile lib env wt w payload).2.2.fileWriteCalls = w.fileWriteCalls + 1 ∧
      (handleUploadFile lib env wt w payload).2.2.handles.length = w.handles.length + 1 ∧
      (handleUploadFile lib env wt w payload).2.2.handles[w.handles.length]?
        = some { path := Join W msg.Name, offset := d.length,
                 closes := if msg.TotalChunks = 1 then 1 else 0 } ∧
      (∀ i, i < w.handles.length → i ≠ hA →
        (handleUploadFile lib env wt w payload).2.2.handles[i]? = w.handles[i]?) ∧
      fsLookup (Join W msg.Name) (handleUploadFile lib env wt w payload).2.2.files = some d ∧
      (handleUploadFile lib env wt w payload).2.1.uploadFileName = msg.Name ∧
      (handleUploadFile lib env wt w payload).2.1.uploadChunks = 1 := by
  have hr : handleUploadFile lib env wt w payload = handleUploadMessage env wt w msg := by
    simp [handleUploadFile, hparse]
  rw [hr, handleUploadMessage_first_result env wt w msg W d hname h0 hlt hwd hopen hwrite hd]
  obtain ⟨c1, c2, c3, c4, c5, c6, c7, c8, c9⟩ := Close_frame wt w
  have hlen : hA < w.handles.length := by
    by_contra hge
    rw [List.getElem?_eq_none (by omega)] at hfd
    exact Option.noConfusion hfd
  have hclose : (Close wt w).2 = closeFile w hA := by
    simp [Close, cleanupUploadFile, hf]
  refine ⟨rfl, ?_, c2, ?_, rfl, rfl, ?_, ?_, ?_, fsLookup_fsWrite_self _ _ _, rfl, rfl⟩
  · simp only []
    rw [List.getElem?_append_left (by rw [c9]; exact hlen), hclose]
    exact closeFile_getElem w hA fdA hfd
  · intro p hp
    by_cases hpj : p = Join W msg.Name
    · simp [hpj, fsLookup_fsWrite_self]
    · simp only []
      rw [fsLookup_fsWrite_ne p _ _ _ hpj, fsLookup_fsWrite_ne p _ _ _ hpj]
      exact hp
  · simp [c9]
  · simp only []
    rw [← c9]
    exact getElem?_concat_self _ _
  · intro i hi hne
    simp only []
    rw [List.getElem?_append_left (by rw [c9]; exact hi), hclose]
    exact closeFile_getElem_other w hA i hne

theorem first_chunk_abandons_and_restarts_witness :
    (handleUploadFile demoLib (quietEnv (ascii "/tmp"))
        (abcAfterOne (quietEnv (ascii "/tmp"))).2.1 (abcAfterOne (quietEnv (ascii "/tmp"))).2.2
        (ascii "chunk 0/2 b.txt Qg==")).1 = none ∧
      (handleUploadFile demoLib (quietEnv (ascii "/tmp"))
        (abcAfterOne (quietEnv (ascii "/tmp"))).2.1 (abcAfterOne (quietEnv (ascii "/tmp"))).2.2
        (ascii "chunk 0/2 b.txt Qg==")).2.1.uploadChunks = 1 := by
  have h := first_chunk_abandons_and_restarts demoLib (quietEnv (ascii "/tmp"))
    (abcAfterOne (quietEnv (ascii "/tmp"))).2.1 (abcAfterOne (quietEnv (ascii "/tmp"))).2.2
    (ascii "chunk 0/2 b.txt Qg==") (chunkMessage "b.txt" 0 2 "Qg==") (ascii "/tmp")
    (ascii "B") 0 { path := ascii "/tmp/a.txt", offset := 1, closes := 0 }
    (by decide) (by decide) (by decide) (by decide) (by decide) rfl rfl rfl
    (by decide) (by decide)
  exact ⟨h.1, h.2.2.2.2.2.2.2.2.2.2.2⟩

/-! ### The Output path and the codecs -/

theorem b64Val_b64Char (v : Nat) (hv : v < 64) : b64Val (b64Char v) = some v := by
  unfold b64Char
  split_ifs with h1 h2 h3 h4
  · have a : 65 ≤ 65 + v ∧ 65 + v ≤ 90 := by omega
    simp [b64Val, a]
  · have a : ¬ (65 ≤ 97 + (v - 26) ∧ 97 + (v - 26) ≤ 90) := by omega
    have b : 97 ≤ 97 + (v - 26) ∧ 97 + (v - 26) ≤ 122 := by omega
    simp only [b64Val, a, b, if_false, and_self, if_true, Option.some.injEq]
    omega
  · have a : ¬ (65 ≤ 48 + (v - 52) ∧ 48 + (v - 52) ≤ 90) := by omega
    have b : ¬ (97 ≤ 48 + (v - 52) ∧ 48 + (v - 52) ≤ 122) := by omega
    have c : 48 ≤ 48 + (v - 52) ∧ 48 + (v - 52) ≤ 57 := by omega
    simp only [b64Val, a, b, c, if_false, and_self, if_true, Option.some.injEq]
    omega
  · simp [b64Val, h4]
  · have : v = 63 := by omega
    simp [b64Val, this]

theorem b64Char_ne (v : Nat) : b64Char v ≠ padChar ∧ b64Char v ≠ 10 ∧ b64Char v ≠ 13 := by
  unfold b64Char padChar
  split_ifs <;> omega

theorem decodeQuanta_EncodeToString (P : Bytes) (hP : ∀ b ∈ P, b < 256) :
    decodeQuanta (EncodeToString P) = some P := by
  induction P using EncodeToString.induct with
  | case1 b1 b2 b3 rest ih =>
    have h1 : b1 < 256 := hP b1 (by simp)
    have h2 : b2 < 256 := hP b2 (by simp)
    have h3 : b3 < 256 := hP b3 (by simp)
    have hr := ih (fun b hb => hP b (by simp [hb]))
    have e1 := b64Val_b64Char (b1 / 4) (by omega)
    have e2 := b64Val_b64Char (b1 % 4 * 16 + b2 / 16) (by omega)
    have e3 := b64Val_b64Char (b2 % 16 * 4 + b3 / 64) (by omega)
    have e4 := b64Val_b64Char (b3 % 64) (by omega)
    have n3 := (b64Char_ne (b2 % 16 * 4 + b3 / 64)).1
    have n4 := (b64Char_ne (b3 % 64)).1
    simp only [EncodeToString, decodeQuanta, e1, e2, e3, e4, n3, n4, hr, and_false, false_and,
      if_false, Option.some.injEq, List.cons.injEq, and_true]
    omega
  | case2 b1 b2 =>
    have h1 : b1 < 256 := hP b1 (by simp)
    have h2 : b2 < 256 := hP b2 (by simp)
    have e1 := b64Val_b64Char (b1 / 4) (by omega)
    have e2 := b64Val_b64Char (b1 % 4 * 16 + b2 / 16) (by omega)
    have e3 := b64Val_b64Char (b2 % 16 * 4) (by omega)
    have n3 := (b64Char_ne (b2 % 16 * 4)).1
    simp only [EncodeToString, decodeQuanta, e1, e2, e3, n3, and_false, false_and,
      if_false, and_self, if_true, Option.some.injEq, List.cons.injEq, and_true]
    omega
  | case3 b1 =>
    have h1 : b1 < 256 := hP b1 (by simp)
    have e1 := b64Val_b64Char (b1 / 4) (by omega)
    have e2 := b64Val_b64Char (b1 % 4 * 16) (by omega)
    simp only [EncodeToString, decodeQuanta, e1, e2, and_self, if_true, Option.some.injEq,
      List.cons.injEq, and_true]
    omega
  | case4 => simp [EncodeToString, decodeQuanta]


theorem EncodeToString_clean (P : Bytes) :
    ∀ c ∈ EncodeToString P, c ≠ 10 ∧ c ≠ 13 := by
  induction P using EncodeToString.induct with
  | case1 b1 b2 b3 rest ih =>
    intro c hc
    simp only [EncodeToString, List.mem_cons] at hc
    rcases hc with h | h | h | h | h
    · rw [h]; exact (b64Char_ne _).2
    · rw [h]; exact (b64Char_ne _).2
    · rw [h]; exact (b64Char_ne _).2
    · rw [h]; exact (b64Char_ne _).2
    · exact ih c h
  | case2 b1 b2 =>
    intro c hc
    simp only [EncodeToString, List.mem_cons, List.mem_singleton, List.not_mem_nil,
      or_false] at hc
    rcases hc with h | h | h | h
    · rw [h]; exact (b64Char_ne _).2
    · rw [h]; exact (b64Char_ne _).2
    · rw [h]; exact (b64Char_ne _).2
    · rw [h]; decide
  | case3 b1 =>
    intro c hc
    simp only [EncodeToString, List.mem_cons, List.mem_singleton, List.not_mem_nil,
      or_false] at hc
    rcases hc with h | h | h | h
    · rw [h]; exact (b64Char_ne _).2
    · rw [h]; exact (b64Char_ne _).2
    · rw [h]; decide
    · rw [h]; decide
  | case4 => intro c hc; simp [EncodeToString] at hc

/-- The round trip of `base64.StdEncoding`: decoding an encoding gives the
bytes back. -/
theorem DecodeString_EncodeToString (P : Bytes) (hP : ∀ b ∈ P, b < 256) :
    DecodeString (EncodeToString P) = some P := by
  unfold DecodeString
  have hf : (EncodeToString P).filter (fun c => c != 10 && c != 13) = EncodeToString P := by
    rw [List.filter_eq_self]
    intro c hc
    obtain ⟨a, b⟩ := EncodeToString_clean P c hc
    simp [a, b]
  rw [hf]
  exact decodeQuanta_EncodeToString P hP

theorem length_EncodeToString (P : Bytes) :
    (EncodeToString P).length = 4 * ((P.length + 2) / 3) := by
  induction P using EncodeToString.induct with
  | case1 b1 b2 b3 rest ih =>
    simp only [EncodeToString, List.length_cons, ih]
    omega
  | case2 b1 b2 => simp [EncodeToString]
  | case3 b1 => simp [EncodeToString]
  | case4 => simp [EncodeToString]

theorem EncodeToString_ne_nil (P : Bytes) (h : P ≠ []) : EncodeToString P ≠ [] := by
  intro e
  have := length_EncodeToString P
  rw [e] at this
  have hl : 0 < P.length := List.length_pos.mpr h
  simp at this
  omega

/-- C13, counterexample. With the pass-through codec as the current codec (the
codec of a new session), the payload `A` is put after the Output tag as
`QQ==`, and the Input handler under that codec passes `QQ==` through: the
bytes written to the Slave are `QQ==`, not `A`. -/
theorem output_ignores_codec :
    (handleSlaveReadEvent sampleTypes (quietEnv []) emptyWorld (ascii "A")).2.masterWrites
        = [sampleTypes.Output :: ascii "QQ=="] ∧
      Decoder.null.Decode (ascii "QQ==") = some (ascii "QQ==") ∧
      ascii "QQ==" ≠ ascii "A" ∧
      New.decoder = Decoder.null ∧
      (handleMasterReadEvent sampleTypes demoLib (quietEnv []) { New with permitWrite := true }
        emptyWorld (sampleTypes.Input :: ascii "QQ==")).2.2.slaveWrites = [ascii "QQ=="] := by
  decide

/-- C13, amended. For every payload P (of bytes), the encoded form that
`handleSlaveReadEvent` puts after the Output tag is the base64 encoding of P,
whatever the current codec of the session. Decoded the way the Input handler
decodes under the base64 codec it yields exactly P, and a non-empty P sent
back this way is written to the Slave as exactly P. Under the pass-through
codec the Input handler hands on the bytes it is given unchanged, so its
round trip is the one of a pass-through encoding, not of the Output path. -/
theorem output_round_trip (mt : MessageTypes) (lib : Lib) (env : Env) (wt : WebTTY) (w : World)
    (P : Bytes) (hP : ∀ b ∈ P, b < 256) :
    (handleSlaveReadEvent mt env w P).2.masterWrites
        = w.masterWrites ++ [mt.Output :: EncodeToString P] ∧
      Decoder.base64.Decode (EncodeToString P) = some P ∧
      Decoder.null.Decode P = some P ∧
      (wt.permitWrite = true → wt.decoder = Decoder.base64 → P ≠ [] →
        (handleMasterReadEvent mt lib env wt w (mt.Input :: EncodeToString P)).2.2.slaveWrites
          = w.slaveWrites ++ [P]) := by
  refine ⟨rfl, DecodeString_EncodeToString P hP, rfl, ?_⟩
  intro hp hdec hne
  have h1 := EncodeToString_ne_nil P hne
  have h2 : Decoder.base64.Decode (EncodeToString P) = some P :=
    DecodeString_EncodeToString P hP
  by_cases hs : env.slaveWriteFails w.slaveWrites.length = true <;>
    simp [handleMasterReadEvent, hp, h1, hdec, h2, hs]

/-- C14. For every buffer size B >= 1 and every Slave read of n bytes with
n <= maxChunkSize = ((B - 1) div 4) * 3, the Output message that
`handleSlaveReadEvent` writes (the tag byte and the base64 encoding of the n
bytes, 4 * ceil(n / 3) bytes) has length at most B; and
0 <= maxChunkSize <= B, so the slice `buffer[:maxChunkSize]` of the B-byte
read buffer is in bounds. -/
theorem output_message_fits_buffer (mt : MessageTypes) (env : Env) (w : World)
    (bufferSize : Int) (data : Bytes) (hB : 1 ≤ bufferSize)
    (hn : (data.length : Int) ≤ maxChunkSize bufferSize) :
    (handleSlaveReadEvent mt env w data).2.masterWrites
        = w.masterWrites ++ [mt.Output :: EncodeToString data] ∧
      (mt.Output :: EncodeToString data).length = 1 + 4 * ((data.length + 2) / 3) ∧
      ((mt.Output :: EncodeToString data).length : Int) ≤ bufferSize ∧
      0 ≤ maxChunkSize bufferSize ∧ maxChunkSize bufferSize ≤ bufferSize := by
  have hdiv : Int.tdiv (bufferSize - 1) 4 = (bufferSize - 1) / 4 :=
    Int.tdiv_eq_ediv (by omega) (by decide)
  unfold maxChunkSize at hn ⊢
  rw [hdiv] at hn ⊢
  have hlen : (mt.Output :: EncodeToString data).length = 1 + 4 * ((data.length + 2) / 3) := by
    rw [List.length_cons, length_EncodeToString]; omega
  refine ⟨rfl, hlen, ?_, by omega, by omega⟩
  rw [hlen]
  push_cast
  omega

theorem output_round_trip_witness :
    Decoder.base64.Decode (EncodeToString (ascii "hi")) = some (ascii "hi") :=
  (output_round_trip sampleTypes demoLib (quietEnv []) New emptyWorld (ascii "hi")
    (by decide)).2.1

theorem output_message_fits_buffer_witness :
    ((sampleTypes.Output :: EncodeToString (ascii "abcdef")).length : Int) ≤ 9 :=
  (output_message_fits_buffer sampleTypes (quietEnv []) emptyWorld 9 (ascii "abcdef")
    (by decide) (by decide)).2.2.1

/-! ### Every file handle is closed exactly once -/

theorem closeFile_getElem_ne (w : World) (h i : Nat) (hne : i ≠ h) :
    (closeFile w h).handles[i]? = w.handles[i]? := by
  unfold closeFile
  cases hh : w.handles[h]? with
  | none => rfl
  | some fd => simp [List.getElem?_set, Ne.symm hne]

theorem Accounted.closeFile {w : World} {h : Nat} (ha : Accounted (some h) w.handles) :
    Accounted none (closeFile w h).handles := by
  obtain ⟨a1, a2⟩ := ha
  refine ⟨fun _ e => Option.noConfusion e, ?_⟩
  intro i fd hfd
  simp only [reduceCtorEq, if_false]
  by_cases hi : i = h
  · subst hi
    obtain ⟨fd0, hfd0⟩ : ∃ fd0, w.handles[i]? = some fd0 := by
      have := a1 i rfl
      exact ⟨w.handles[i], by simp [this]⟩
    rw [closeFile_getElem w i fd0 hfd0] at hfd
    have := a2 i fd0 hfd0
    simp only [if_true] at this
    cases hfd
    simp [this]
  · rw [closeFile_getElem_ne w h i hi] at hfd
    have := a2 i fd hfd
    have hne : ¬ (some h = some i) := by
      intro e; cases e; exact hi rfl
    simpa [hne] using this

theorem Accounted.opened {hs : List FileDesc} (ha : Accounted none hs) (path : Bytes) :
    Accounted (some hs.length) (hs ++ [{ path := path, offset := 0, closes := 0 }]) := by
  obtain ⟨_, a2⟩ := ha
  refine ⟨?_, ?_⟩
  · intro h e; cases e; simp
  · intro i fd hfd
    by_cases hi : i < hs.length
    · rw [List.getElem?_append_left hi] at hfd
      have := a2 i fd hfd
      have hne : ¬ (some hs.length = some i) := by
        intro e; cases e; omega
      simpa [hne] using this
    · by_cases he : i = hs.length
      · subst he
        simp at hfd
        simp [← hfd]
      · rw [List.getElem?_eq_none (by simp; omega)] at hfd
        exact Option.noConfusion hfd

theorem Accounted.fileWrite {held : Option Nat} (env : Env) (w : World) (h : Nat)
    (data : Bytes) (ha : Accounted held w.handles) :
    Accounted held (fileWrite env w h data).2.handles := by
  unfold Gotty.fileWrite
  cases hh : w.handles[h]? with
  | none => exact ha
  | some fd0 =>
    by_cases hc : 0 < fd0.closes
    · simpa [hc] using ha
    · simp only [hc, if_false]
      obtain ⟨a1, a2⟩ := ha
      refine ⟨by simpa using a1, ?_⟩
      intro i fd hfd
      by_cases hi : i = h
      · subst hi
        have hlt : i < w.handles.length := by
          by_contra hge
          rw [List.getElem?_eq_none (by omega)] at hh
          exact Option.noConfusion hh
        simp [List.getElem?_set, hlt] at hfd
        have := a2 i fd0 hh
        rw [← hfd]
        exact this
      · simp [List.getElem?_set, Ne.symm hi] at hfd
        exact a2 i fd hfd

theorem uploadFirstChunk_accounted (env : Env) (wt : WebTTY) (w : World)
    (msg : UploadFileMessage) (ha : Accounted wt.uploadFile w.handles) :
    Accounted (uploadFirstChunk env wt w msg).2.1.uploadFile
      (uploadFirstChunk env wt w msg).2.2.handles := by
  by_cases h0 : msg.Chunk = 0
  · cases hwd : env.getWorkingDir w.workDirCalls with
    | none =>
      cases hf : wt.uploadFile with
      | none =>
        rw [hf] at ha
        simpa [uploadFirstChunk, h0, hwd, hf] using ha
      | some h =>
        rw [hf] at ha
        simpa [uploadFirstChunk, h0, hwd, hf, closeFile_frame] using ha.closeFile
    | some W =>
      by_cases ho : env.openFails w.openCalls = true
      · cases hf : wt.uploadFile with
        | none =>
          rw [hf] at ha
          simpa [uploadFirstChunk, h0, hwd, hf, osOpenFile, ho] using ha
        | some h =>
          rw [hf] at ha
          simpa [uploadFirstChunk, h0, hwd, hf, closeFile_frame, osOpenFile, ho]
            using ha.closeFile
      · cases hf : wt.uploadFile with
        | none =>
          rw [hf] at ha
          simpa [uploadFirstChunk, h0, hwd, hf, osOpenFile, ho] using ha.opened (Join W msg.Name)
        | some h =>
          rw [hf] at ha
          simpa [uploadFirstChunk, h0, hwd, hf, closeFile_frame, osOpenFile, ho]
            using ha.closeFile.opened (Join W msg.Name)
  · simpa [uploadFirstChunk, h0] using ha

theorem uploadAppend_accounted (env : Env) (wt : WebTTY) (w : World)
    (msg : UploadFileMessage) (ha : Accounted wt.uploadFile w.handles) :
    Accounted (uploadAppend env wt w msg).2.1.uploadFile
      (uploadAppend env wt w msg).2.2.handles := by
  by_cases h1 : msg.Chunk ≠ wt.uploadChunks
  · simpa [uploadAppend, h1] using ha
  · have h2 : msg.Chunk = wt.uploadChunks := not_not.mp h1
    cases hd : DecodeString msg.Data with
    | none => simpa [uploadAppend, h2, hd] using ha
    | some d =>
      cases hf : wt.uploadFile with
      | none =>
        rw [hf] at ha
        by_cases hl : wt.uploadChunks = msg.TotalChunks - 1 <;>
          simpa [uploadAppend, h2, hd, hf, hl] using ha
      | some h =>
        rw [hf] at ha
        have hw := Accounted.fileWrite env w h d ha
        by_cases hfail : (fileWrite env w h d).1 = false
        · simpa [uploadAppend, h2, hd, hf, hfail] using hw
        · by_cases hl : wt.uploadChunks = msg.TotalChunks - 1
          · simpa [uploadAppend, h2, hd, hf, hfail, hl] using hw.closeFile
          · simpa [uploadAppend, h2, hd, hf, hfail, hl] using hw

theorem handleUploadFile_accounted (lib : Lib) (env : Env) (wt : WebTTY) (w : World)
    (payload : Bytes) (ha : Accounted wt.uploadFile w.handles) :
    Accounted (handleUploadFile lib env wt w payload).2.1.uploadFile
      (handleUploadFile lib env wt w payload).2.2.handles := by
  unfold handleUploadFile
  cases hp : lib.unmarshalUpload payload with
  | none => exact ha
  | some msg =>
    simp only []
    unfold handleUploadMessage
    cases hv : validateFileName msg.Name with
    | some e => exact ha
    | none =>
      simp only []
      by_cases h1 : msg.TotalChunks ≤ 0
      · simpa [h1] using ha
      · by_cases h2 : msg.Chunk < 0 ∨ msg.Chunk ≥ msg.TotalChunks
        · simpa [h1, h2] using ha
        · have hfirst := uploadFirstChunk_accounted env wt w msg ha
          rw [if_neg h1, if_neg h2]
          rcases hr : uploadFirstChunk env wt w msg with ⟨e, wt1, w1⟩
          rw [hr] at hfirst
          cases e with
          | some e => exact hfirst
          | none => exact uploadAppend_accounted env wt1 w1 msg hfirst

theorem handleMasterReadEvent_accounted (mt : MessageTypes) (lib : Lib) (env : Env)
    (wt : WebTTY) (w : World) (data : Bytes) (ha : Accounted wt.uploadFile w.handles) :
    Accounted (handleMasterReadEvent mt lib env wt w data).2.1.uploadFile
      (handleMasterReadEvent mt lib env wt w data).2.2.handles := by
  cases data with
  | nil => exact ha
  | cons tag payload =>
    unfold handleMasterReadEvent
    simp only []
    by_cases t1 : tag = mt.Input
    · rw [if_pos t1]
      by_cases hp : wt.permitWrite = false
      · simpa [hp] using ha
      · by_cases he : payload = []
        · simpa [hp, he] using ha
        · rw [if_neg hp, if_neg he]
          cases wt.decoder.Decode payload with
          | none => exact ha
          | some decoded =>
            simp only []
            split_ifs <;> exact ha
    · rw [if_neg t1]
      by_cases t2 : tag = mt.Ping
      · rw [if_pos t2]
        simp only [masterWrite]
        split_ifs <;> exact ha
      · rw [if_neg t2]
        by_cases t3 : tag = mt.SetEncoding
        · rw [if_pos t3]
          split_ifs <;> exact ha
        · rw [if_neg t3]
          by_cases t4 : tag = mt.ResizeTerminal
          · rw [if_pos t4]
            by_cases hfix : wt.columns ≠ 0 ∧ wt.rows ≠ 0
            · rw [if_pos hfix]; exact ha
            · rw [if_neg hfix]
              by_cases he : payload = []
              · rw [if_pos he]; exact ha
              · rw [if_neg he]
                cases lib.unmarshalResize payload <;> exact ha
          · rw [if_neg t4]
            by_cases t5 : tag = mt.UploadFile
            · rw [if_pos t5]
              by_cases hp : wt.permitWrite = false
              · simpa [hp] using ha
              · by_cases he : payload = []
                · simpa [hp, he] using ha
                · rw [if_neg hp, if_neg he]
                  have hu := handleUploadFile_accounted lib env wt w payload ha
                  rcases hr : handleUploadFile lib env wt w payload with ⟨_ | e, wt1, w1⟩ <;>
                    rw [hr] at hu <;> exact hu
            · rw [if_neg t5]
              by_cases t6 : tag = mt.UploadCancel
              · rw [if_pos t6]
                cases hf : wt.uploadFile with
                | none => simp only []; rw [hf] at ha; rw [hf]; exact ha
                | some h =>
                  rw [hf] at ha
                  simp only []
                  have hc := ha.closeFile
                  split_ifs
                  · unfold osRemove
                    split_ifs <;> exact hc
                  · exact hc
              · rw [if_neg t6]
                exact ha

theorem masterReadLoop_accounted (mt : MessageTypes) (lib : Lib) (env : Env) :
    ∀ (msgs : List Bytes) (wt : WebTTY) (w : World), Accounted wt.uploadFile w.handles →
      Accounted (masterReadLoop mt lib env wt w msgs).2.1.uploadFile
        (masterReadLoop mt lib env wt w msgs).2.2.handles := by
  intro msgs
  induction msgs with
  | nil => intro wt w ha; exact ha
  | cons data more ih =>
    intro wt w ha
    have hstep := handleMasterReadEvent_accounted mt lib env wt w data ha
    rcases hr : handleMasterReadEvent mt lib env wt w data with ⟨e, wt1, w1⟩
    rw [hr] at hstep
    cases e with
    | some e => simpa [masterReadLoop, hr] using hstep
    | none => simpa [masterReadLoop, hr] using ih wt1 w1 hstep

theorem Close_accounted (wt : WebTTY) (w : World) (ha : Accounted wt.uploadFile w.handles) :
    Accounted none (Close wt w).2.handles := by
  unfold Close cleanupUploadFile
  cases hf : wt.uploadFile with
  | none => rw [hf] at ha; exact ha
  | some h => rw [hf] at ha; exact ha.closeFile

theorem Close_uploadFile (wt : WebTTY) (w : World) : (Close wt w).1.uploadFile = none := by
  unfold Close cleanupUploadFile
  cases hf : wt.uploadFile <;> simp [hf]

/-- C19. For every finite sequence of Master messages handled by the Master
read loop (which stops at the first message that returns an error) from a
session whose handles are accounted for, such as a new session that has
opened no file: after every such sequence at most one handle is open, it is
the one held in the upload state, and every other handle has been closed
exactly once; after `Close` the session holds no handle, no handle has
disappeared, and every handle has been closed exactly once. Every prefix of
a sequence is a sequence, so this holds at every point in between. -/
theorem handles_closed_exactly_once (mt : MessageTypes) (lib : Lib) (env : Env) (wt : WebTTY)
    (w : World) (msgs : List Bytes) (ha : Accounted wt.uploadFile w.handles) :
    Accounted (masterReadLoop mt lib env wt w msgs).2.1.uploadFile
        (masterReadLoop mt lib env wt w msgs).2.2.handles ∧
      (Close (masterReadLoop mt lib env wt w msgs).2.1
        (masterReadLoop mt lib env wt w msgs).2.2).1.uploadFile = none ∧
      (Close (masterReadLoop mt lib env wt w msgs).2.1
        (masterReadLoop mt lib env wt w msgs).2.2).2.handles.length
        = (masterReadLoop mt lib env wt w msgs).2.2.handles.length ∧
      ∀ fd ∈ (Close (masterReadLoop mt lib env wt w msgs).2.1
        (masterReadLoop mt lib env wt w msgs).2.2).2.handles, fd.closes = 1 := by
  have hl := masterReadLoop_accounted mt lib env msgs wt w ha
  have hc := Close_accounted _ _ hl
  refine ⟨hl, ?_, (Close_frame _ _).2.2.2.2.2.2.2.2, ?_⟩
  · exact Close_uploadFile _ _
  · intro fd hfd
    obtain ⟨i, hi⟩ := List.mem_iff_getElem?.mp hfd
    have := hc.2 i fd hi
    simpa using this

theorem handles_closed_exactly_once_witness :
    Accounted
        (masterReadLoop sampleTypes (tableLib abcUploads []) (quietEnv (ascii "/tmp"))
          { New with permitWrite := true } emptyWorld
          [ascii "5chunk 0/3 a.txt QQ==", ascii "5chunk 2/3 a.txt Qw=="]).2.1.uploadFile
        (masterReadLoop sampleTypes (tableLib abcUploads []) (quietEnv (ascii "/tmp"))
          { New with permitWrite := true } emptyWorld
          [ascii "5chunk 0/3 a.txt QQ==", ascii "5chunk 2/3 a.txt Qw=="]).2.2.handles ∧
      (Close
        (masterReadLoop sampleTypes (tableLib abcUploads []) (quietEnv (ascii "/tmp"))
          { New with permitWrite := true } emptyWorld
          [ascii "5chunk 0/3 a.txt QQ==", ascii "5chunk 2/3 a.txt Qw=="]).2.1
        (masterReadLoop sampleTypes (tableLib abcUploads []) (quietEnv (ascii "/tmp"))
          { New with permitWrite := true } emptyWorld
          [ascii "5chunk 0/3 a.txt QQ==", ascii "5chunk 2/3 a.txt Qw=="]).2.2).1.uploadFile
        = none :=
  ⟨(handles_closed_exactly_once sampleTypes (tableLib abcUploads []) (quietEnv (ascii "/tmp"))
      { New with permitWrite := true } emptyWorld
      [ascii "5chunk 0/3 a.txt QQ==", ascii "5chunk 2/3 a.txt Qw=="]
      ⟨fun _ e => Option.noConfusion e, fun i fd h => by simp [emptyWorld] at h⟩).1,
    (handles_closed_exactly_once sampleTypes (tableLib abcUploads []) (quietEnv (ascii "/tmp"))
      { New with permitWrite := true } emptyWorld
      [ascii "5chunk 0/3 a.txt QQ==", ascii "5chunk 2/3 a.txt Qw=="]
      ⟨fun _ e => Option.noConfusion e, fun i fd h => by simp [emptyWorld] at h⟩).2.1⟩

/-! ### The handshake of the relay -/

/-- C15. `authenticateASRWS` succeeds if and only if the first read of the
inbound connection succeeds, the message is text-typed, its payload parses
into an init message and the parsed authentication token equals the
configured credential; in every other case it returns an error, and the
handler (on an enabled endpoint, a GET request and a successful upgrade)
then sends a close frame with the policy-violation code and the text of the
error, closes the client connection and returns: the backend is not dialed
and no message is relayed. -/
theorem asr_handshake (unmarshalInit : Bytes → Except Bytes InitMessage) (options : Options)
    (req : ASRRequest) :
    (authenticateASRWS unmarshalInit options req.firstRead = none ↔
      ∃ data init, req.firstRead = ReadMessageResult.message TextMessage data ∧
        unmarshalInit data = Except.ok init ∧ init.AuthToken = options.Credential) ∧
    (∀ err, authenticateASRWS unmarshalInit options req.firstRead = some err →
      options.EnableASR = true → req.methodIsGet = true → req.upgradeOk = true →
      generateHandleASRWS unmarshalInit options req
        = [ASRAction.writeControl CloseMessage ClosePolicyViolation err.Error,
            ASRAction.closeClient] ∧
      ASRAction.relay ∉ generateHandleASRWS unmarshalInit options req ∧
      ∀ address, ASRAction.dial address ∉ generateHandleASRWS unmarshalInit options req) := by
  refine ⟨?_, ?_⟩
  · cases hf : req.firstRead with
    | failed cause => simp [authenticateASRWS]
    | message typ data =>
      by_cases ht : typ = TextMessage
      · subst ht
        cases hu : unmarshalInit data with
        | error cause => simp [authenticateASRWS, hu]
        | ok init =>
          by_cases hc : init.AuthToken = options.Credential
          · simp [authenticateASRWS, hu, hc]
          · simp [authenticateASRWS, hu, hc]
      · simp [authenticateASRWS, ht]
  · intro err he h1 h2 h3
    have hg : generateHandleASRWS unmarshalInit options req
        = [ASRAction.writeControl CloseMessage ClosePolicyViolation err.Error,
            ASRAction.closeClient] := by
      simp [generateHandleASRWS, h1, h2, h3, he]
    rw [hg]
    simp

theorem asr_handshake_witness :
    generateHandleASRWS tokenUnmarshal
        { EnableASR := true, Credential := ascii "secret", ASRBackend := ascii "ws://backend" }
        { methodIsGet := true, upgradeOk := true,
          firstRead := ReadMessageResult.message TextMessage (ascii "guess"), dialOk := true }
      = [ASRAction.writeControl CloseMessage ClosePolicyViolation
          (ascii "authentication failed"), ASRAction.closeClient] :=
  ((asr_handshake tokenUnmarshal
      { EnableASR := true, Credential := ascii "secret", ASRBackend := ascii "ws://backend" }
      { methodIsGet := true, upgradeOk := true,
        firstRead := ReadMessageResult.message TextMessage (ascii "guess"), dialOk := true }).2
    AuthError.authentication (by decide) rfl rfl rfl).1

end Gotty
